import Mathlib

/-! Realtime tram dashboard: decoder and fleet aggregator.

A shallow embedding of `src/tram_dashboard.c`.

Conventions of the embedding.

* A byte is a natural number in `0..255`; a byte sequence is a `List Nat`.
* Plain `char` is signed (the ABI of the Linux targets the program is written
  for), so a byte `b ≥ 128` read into `int content_length` is the negative
  number `b - 256`.
* A C string (a `char*` argument, a `char[128]` field) is represented by the
  bytes that precede its terminating zero byte.
* `none` stands for undefined behaviour of the C program: an access outside an
  array, a variable length array of non-positive size, a `strcpy` that
  overflows its destination.
* `atoi` is the function of the C library of the target (64-bit `long`, 32-bit
  `int`): `(int) strtol(s, NULL, 10)`, defined for every string.
* `printf` and `print_dashboard` only write to the terminal and are left out;
  `dashboard` below is the list of slots that `print_dashboard` walks through.
* `bzero(buffer, 256)` on `char buffer[255]` is taken as zeroing the 255 bytes
  of the array.
-/

namespace TramDashboard

/-! ## Constants and strings -/

/-- Capacity of the global array: `#define MAX_TRAMS 100`. -/
def MAX_TRAMS : Nat := 100

/-- Size of `char buffer[255]` in `main`, also the size passed to `read`. -/
def BUFFER_SIZE : Nat := 255

/-- Size of the `char tramID[128]` and `char location[128]` fields. -/
def FIELD_SIZE : Nat := 128

/-- Largest value of a 32-bit `int`. -/
def INT_MAX : Int := 2147483647

/-- Smallest value of a 32-bit `int`. -/
def INT_MIN : Int := -2147483648

/-- Bytes of an ASCII string literal. -/
def ascii (s : String) : List Nat := s.toList.map Char.toNat

/-- The string literal `"MSGTYPE"`. -/
def MSGTYPE : List Nat := ascii "MSGTYPE"

/-- The string literal `"LOCATION"`. -/
def LOCATION : List Nat := ascii "LOCATION"

/-- The string literal `"PASSENGER_COUNT"`. -/
def PASSENGER_COUNT : List Nat := ascii "PASSENGER_COUNT"

/-- The string literal `"TRAM_ID"`. -/
def TRAM_ID : List Nat := ascii "TRAM_ID"

/-- The string literal `"VALUE"`. -/
def VALUE : List Nat := ascii "VALUE"

/-- The C string held in a `char` array: the bytes before the first zero byte. -/
def cstr (a : List Nat) : List Nat := a.takeWhile (fun c => c != 0)

/-- The bytes `strncpy(dst, src, n)` writes to `dst[0..n-1]`, where `src` is the
list of bytes from the source pointer to the end of the source array: bytes
are copied up to and excluding the first zero byte, the rest of the `n` bytes is
filled with zero bytes. `none` when the copy would read past the source array. -/
def strncpy : List Nat → Nat → Option (List Nat)
  | _, 0 => some []
  | [], _ + 1 => none
  | c :: cs, n + 1 =>
    if c = 0 then some (List.replicate (n + 1) 0)
    else (strncpy cs n).map (fun r => c :: r)

/-! ## The fleet: `trams`, `num_trams`, `find_tram_index`, `update_tram_info` -/

/-- The C `struct TramInfo`; the two `char[128]` fields hold C strings. -/
structure TramInfo where
  tramID : List Nat
  location : List Nat
  passenger_count : Int
deriving DecidableEq, Repr

/-- A zero-initialised slot of the global array. -/
def TramInfo.zero : TramInfo := ⟨[], [], 0⟩

/-- The globals `TramInfo trams[MAX_TRAMS]` and `int num_trams`. Only slots
below `MAX_TRAMS` exist in the program; `update_tram_info` checks the index
before it writes. -/
structure Fleet where
  trams : Nat → TramInfo
  num_trams : Nat

/-- The initial globals: every slot zero, `num_trams = 0`. -/
def Fleet.empty : Fleet := ⟨fun _ => TramInfo.zero, 0⟩

/-- The slots `0..num_trams-1`, the ones `print_dashboard` prints. -/
def dashboard (F : Fleet) : List TramInfo := (List.range F.num_trams).map F.trams

/-- The tram ids in slots `0..num_trams-1`. -/
def ids (F : Fleet) : List (List Nat) := (dashboard F).map TramInfo.tramID

/-- The `for` loop of `find_tram_index`, from index `i` with `k` slots left to
visit; `none` is the C result `-1`. -/
def find_tram_index_from (trams : Nat → TramInfo) (tram_id : List Nat) : Nat → Nat → Option Nat
  | 0, _ => none
  | k + 1, i =>
    if (trams i).tramID = tram_id then some i
    else find_tram_index_from trams tram_id k (i + 1)

/-- The C function `find_tram_index`; `none` is the C result `-1`. -/
def find_tram_index (F : Fleet) (tram_id : List Nat) : Option Nat :=
  find_tram_index_from F.trams tram_id F.num_trams 0

/-- The C classification `isspace` in the "C" locale. -/
def isspace (c : Nat) : Bool := c == 32 || (9 ≤ c && c ≤ 13)

/-- The C classification `isdigit`. -/
def isdigit (c : Nat) : Bool := 48 ≤ c && c ≤ 57

/-- Value of the longest prefix of decimal digits, continuing from `acc`. -/
def digitsValue : List Nat → Nat → Nat
  | [], acc => acc
  | c :: cs, acc => if isdigit c then digitsValue cs (acc * 10 + (c - 48)) else acc

/-- The number a string denotes for `atoi` and `strtol`: white space is skipped,
one optional sign is taken, then the longest run of decimal digits. -/
def atoiValue (s : List Nat) : Int :=
  match s.dropWhile isspace with
  | 45 :: r => - (digitsValue r 0 : Int)
  | 43 :: r => (digitsValue r 0 : Int)
  | r => (digitsValue r 0 : Int)

/-- Largest value of a 64-bit `long`. -/
def LONG_MAX : Int := 9223372036854775807

/-- Smallest value of a 64-bit `long`. -/
def LONG_MIN : Int := -9223372036854775808

/-- The library function `strtol(s, NULL, 10)`: the number the string denotes, clamped
to the range of `long`. -/
def strtol (s : List Nat) : Int := max LONG_MIN (min LONG_MAX (atoiValue s))

/-- Conversion of a `long` to `int` on the target: the low 32 bits, read as a signed
number. -/
def long_to_int (x : Int) : Int := (x + 2147483648) % 4294967296 - 2147483648

/-- The library function `atoi` of the target, `(int) strtol(s, NULL, 10)`. It returns
the number the string denotes when that is representable as `int`; ISO C leaves the
other cases undefined, the C library of the target returns the clamped `long` converted
to `int`. The result is always present; the type is the one of the other operations. -/
def atoi (s : List Nat) : Option Int := some (long_to_int (strtol s))

/-- The field assignment at the end of `update_tram_info`, lines 249-255. -/
def assign_field (F : Fleet) (tram_index : Nat) (value msgtype : List Nat) : Option Fleet :=
  if msgtype = LOCATION then
    -- strcpy(trams[tram_index].location, value);
    if value.length < FIELD_SIZE then
      some { F with trams := Function.update F.trams tram_index
                      { F.trams tram_index with location := value } }
    else none
  else if msgtype = PASSENGER_COUNT then
    -- trams[tram_index].passenger_count = atoi(value);
    match atoi value with
    | some c =>
      some { F with trams := Function.update F.trams tram_index
                      { F.trams tram_index with passenger_count := c } }
    | none => none
  else some F

/-- The C function `update_tram_info`. -/
def update_tram_info (F : Fleet) (tram_id value msgtype : List Nat) : Option Fleet :=
  match find_tram_index F tram_id with
  | some tram_index => assign_field F tram_index value msgtype
  | none =>
    -- strcpy(trams[num_trams].tramID, tram_id); tram_index = num_trams; num_trams++;
    if F.num_trams < MAX_TRAMS ∧ tram_id.length < FIELD_SIZE then
      assign_field
        { trams := Function.update F.trams F.num_trams
                      { F.trams F.num_trams with tramID := tram_id },
          num_trams := F.num_trams + 1 }
        F.num_trams value msgtype
    else none

/-- One call of `update_tram_info`, with its three arguments. -/
structure Call where
  tram_id : List Nat
  value : List Nat
  msgtype : List Nat
deriving DecidableEq, Repr

/-- A sequence of `update_tram_info` calls applied in order. -/
def applyAll (F : Fleet) (calls : List Call) : Option Fleet :=
  calls.foldlM (fun G c => update_tram_info G c.tram_id c.value c.msgtype) F

/-! ## The read and parse loops of `main` -/

/-- Result of running a loop of the program. -/
inductive Outcome (α : Type) where
  | done (a : α)
  | undefined
  | outOfFuel

/-- Map over the result of a finished run. -/
def Outcome.map {α β : Type} (f : α → β) : Outcome α → Outcome β
  | .done a => .done (f a)
  | .undefined => .undefined
  | .outOfFuel => .outOfFuel

instance {α : Type} [DecidableEq α] : DecidableEq (Outcome α)
  | .done a, .done b => if h : a = b then isTrue (by rw [h]) else isFalse (by intro e; cases e; exact h rfl)
  | .done _, .undefined => isFalse (by intro e; cases e)
  | .done _, .outOfFuel => isFalse (by intro e; cases e)
  | .undefined, .done _ => isFalse (by intro e; cases e)
  | .undefined, .undefined => isTrue rfl
  | .undefined, .outOfFuel => isFalse (by intro e; cases e)
  | .outOfFuel, .done _ => isFalse (by intro e; cases e)
  | .outOfFuel, .undefined => isFalse (by intro e; cases e)
  | .outOfFuel, .outOfFuel => isTrue rfl

/-- One content extraction of the parse loop, lines 149-154 (and the five
repetitions that follow):
`content_length = buffer[i]; i++; char c[content_length + 1];
strncpy(c, buffer + i, content_length); c[content_length] = 0; i += content_length;`
The result is the array `c` and the new value of `i`. -/
def read_content (buffer : List Nat) (i : Nat) : Option (List Nat × Nat) :=
  match buffer.get? i with
  | none => none
  | some b =>
    if b < 128 then
      (strncpy (buffer.drop (i + 1)) b).map (fun c => (c ++ [0], i + 1 + b))
    else none

/-- The six arrays filled by one iteration of the parse loop. -/
structure Contents where
  msgtype : List Nat
  value : List Nat
  tram_id : List Nat
  tram_id_value : List Nat
  value_padding : List Nat
  payload : List Nat
deriving DecidableEq, Repr

/-- Lines 149-196: the six content extractions of one iteration. -/
def read_contents (buffer : List Nat) (i : Nat) : Option (Contents × Nat) := do
  let (msgtype, i) ← read_content buffer i
  let (value, i) ← read_content buffer i
  let (tram_id, i) ← read_content buffer i
  let (tram_id_value, i) ← read_content buffer i
  let (value_padding, i) ← read_content buffer i
  let (payload, i) ← read_content buffer i
  pure (⟨msgtype, value, tram_id, tram_id_value, value_padding, payload⟩, i)

/-- Lines 206-215: the two `if` statements that call `update_tram_info`. The
list of calls made so far is carried along with the fleet. -/
def dispatch (c : Contents) (F : Fleet) (calls : List Call) : Option (Fleet × List Call) := do
  let (F, calls) ←
    if cstr c.value = LOCATION then
      (update_tram_info F (cstr c.tram_id_value) (cstr c.payload) LOCATION).map
        (fun G => (G, calls ++ [⟨cstr c.tram_id_value, cstr c.payload, LOCATION⟩]))
    else some (F, calls)
  if cstr c.value = PASSENGER_COUNT then
    (update_tram_info F (cstr c.tram_id_value) (cstr c.payload) PASSENGER_COUNT).map
      (fun G => (G, calls ++ [⟨cstr c.tram_id_value, cstr c.payload, PASSENGER_COUNT⟩]))
  else some (F, calls)

/-- The loop `while (i < n)` of `main`, lines 146-217, run for at most `fuel`
iterations. -/
def parse_loop (buffer : List Nat) (n : Nat) :
    Nat → Nat → Fleet → List Call → Outcome (Fleet × List Call)
  | 0, i, F, calls => if i < n then .outOfFuel else .done (F, calls)
  | fuel + 1, i, F, calls =>
    if i < n then
      match read_contents buffer i with
      | none => .undefined
      | some (c, j) =>
        match dispatch c F calls with
        | none => .undefined
        | some (G, calls) => parse_loop buffer n fuel j G calls
    else .done (F, calls)

/-- The buffer after `bzero(buffer, 256); n = read(sockfd, buffer, 255);` when
the read delivers the bytes `chunk`. -/
def recv (chunk : List Nat) : List Nat :=
  chunk ++ List.replicate (BUFFER_SIZE - chunk.length) 0

/-- One iteration of the loop `while(1)` of `main`, lines 137-223, for a read
that delivers `chunk` (so `n = chunk.length`). Every iteration of the parse
loop advances `i`, so `n` iterations are enough. -/
def read_once (F : Fleet) (calls : List Call) (chunk : List Nat) : Outcome (Fleet × List Call) :=
  parse_loop (recv chunk) chunk.length chunk.length 0 F calls

/-- The loop `while(1)` of `main` over the successive reads `chunks`. -/
def read_all : Fleet → List Call → List (List Nat) → Outcome (Fleet × List Call)
  | F, calls, [] => .done (F, calls)
  | F, calls, chunk :: rest =>
    match read_once F calls chunk with
    | .done (G, calls) => read_all G calls rest
    | .undefined => .undefined
    | .outOfFuel => .outOfFuel

/-- What an observer sees after a run: the dashboard slots and the calls made. -/
def observe (r : Outcome (Fleet × List Call)) : Outcome (List TramInfo × List Call) :=
  r.map (fun p => (dashboard p.1, p.2))

/-! ## The wire encoding -/

/-- One content unit on the wire: a length byte and the content bytes. -/
def encodeContent (c : List Nat) : List Nat := c.length :: c

/-- Six content units in wire order: what one iteration of the parse loop
consumes. -/
structure Frame where
  name1 : List Nat
  kind : List Nat
  name2 : List Nat
  id : List Nat
  name3 : List Nat
  payload : List Nat
deriving DecidableEq, Repr

/-- The bytes of a frame. -/
def Frame.encode (f : Frame) : List Nat :=
  encodeContent f.name1 ++ (encodeContent f.kind ++ (encodeContent f.name2 ++
    (encodeContent f.id ++ (encodeContent f.name3 ++ encodeContent f.payload))))

/-- The bytes of a sequence of frames. -/
def encodeFrames : List Frame → List Nat
  | [] => []
  | f :: fs => f.encode ++ encodeFrames fs

/-- A content the wire can carry to this decoder: at most 127 bytes, none zero. -/
def Wire (c : List Nat) : Prop := c.length ≤ 127 ∧ ∀ x ∈ c, x ≠ 0

instance (c : List Nat) : Decidable (Wire c) := by unfold Wire; infer_instance

/-- A frame all of whose six contents can be carried. -/
def Frame.Valid (f : Frame) : Prop :=
  Wire f.name1 ∧ Wire f.kind ∧ Wire f.name2 ∧ Wire f.id ∧ Wire f.name3 ∧ Wire f.payload

instance (f : Frame) : Decidable f.Valid := by unfold Frame.Valid; infer_instance

/-- The update a frame stands for: one call when its kind is `LOCATION` or
`PASSENGER_COUNT`, none otherwise. -/
def Frame.calls (f : Frame) : List Call :=
  if f.kind = LOCATION ∨ f.kind = PASSENGER_COUNT then [⟨f.id, f.payload, f.kind⟩] else []

/-- The updates a sequence of frames stands for. -/
def framesCalls : List Frame → List Call
  | [] => []
  | f :: fs => f.calls ++ framesCalls fs

/-- The frame of a message of kind `msgtype` for tram `tram_id` with payload
`value`: the six contents `MSGTYPE, kind, TRAM_ID, id, VALUE, payload`. -/
def Call.frame (m : Call) : Frame := ⟨MSGTYPE, m.msgtype, TRAM_ID, m.tram_id, VALUE, m.value⟩

/-- The encoding of a message. -/
def encode (m : Call) : List Nat := m.frame.encode

/-- The encoding of a sequence of messages. -/
def encodeAll : List Call → List Nat
  | [] => []
  | m :: ms => encode m ++ encodeAll ms

/-- A message the protocol describes: its kind is `LOCATION` or
`PASSENGER_COUNT`, its id and payload can be carried. -/
def Call.Valid (m : Call) : Prop :=
  (m.msgtype = LOCATION ∨ m.msgtype = PASSENGER_COUNT) ∧ Wire m.tram_id ∧ Wire m.value

instance (m : Call) : Decidable m.Valid := by unfold Call.Valid; infer_instance

/-- The result of a run that makes the calls `cs` from fleet `F` after the
calls `calls`: finished with the updated fleet when every call is defined. -/
def afterCalls (F : Fleet) (calls cs : List Call) : Outcome (Fleet × List Call) :=
  match applyAll F cs with
  | some G => .done (G, calls ++ cs)
  | none => .undefined

/-- The slot written back by the field assignment of `update_tram_info` when the
slot holds `t`: `none` when the assignment is undefined in C. -/
def newSlot (t : TramInfo) (value msgtype : List Nat) : Option TramInfo :=
  if msgtype = LOCATION then
    if value.length < FIELD_SIZE then some { t with location := value } else none
  else if msgtype = PASSENGER_COUNT then
    (atoi value).map (fun c => { t with passenger_count := c })
  else some t

/-- Every slot from `num_trams` on is still zero-initialised. -/
def Pristine (F : Fleet) : Prop := ∀ i, F.num_trams ≤ i → F.trams i = TramInfo.zero

/-! ## The fleet the specification describes -/

/-- The distinct tram ids of a message sequence, in order of first appearance. -/
def firstSeen (ms : List Call) : List (List Nat) :=
  ms.foldl (fun acc m => if m.tram_id ∈ acc then acc else acc ++ [m.tram_id]) []

/-- The value of the last message of kind `kind` for tram `id`, if there is one. -/
def lastValue (kind : List Nat) (ms : List Call) (id : List Nat) : Option (List Nat) :=
  ((ms.filter (fun m => m.msgtype = kind ∧ m.tram_id = id)).getLast?).map Call.value

/-- The number a string of decimal digits denotes. -/
def decimal (v : List Nat) : Nat := v.foldl (fun a c => a * 10 + (c - 48)) 0

/-- The location the specification gives tram `id` after the messages `ms`: the value
of its last `LOCATION` message, the initial empty string if there is none. -/
def specLocation (ms : List Call) (id : List Nat) : List Nat :=
  (lastValue LOCATION ms id).getD []

/-- The passenger count the specification gives tram `id` after the messages `ms`:
the number of its last `PASSENGER_COUNT` message, the initial `0` if there is none. -/
def specCount (ms : List Call) (id : List Nat) : Int :=
  ((lastValue PASSENGER_COUNT ms id).map (fun v => (decimal v : Int))).getD 0

/-- The dashboard the specification describes after the messages `ms`. -/
def specDashboard (ms : List Call) : List TramInfo :=
  (firstSeen ms).map (fun id => ⟨id, specLocation ms id, specCount ms id⟩)

/-- A string of ASCII decimal digits that denotes a number representable as `int`. -/
def IsCount (v : List Nat) : Prop := (∀ c ∈ v, 48 ≤ c ∧ c ≤ 57) ∧ decimal v ≤ 2147483647

instance (v : List Nat) : Decidable (IsCount v) := by unfold IsCount; infer_instance

/-- A message `update_tram_info` is specified for: the id is shorter than 128 bytes and
the message is a `LOCATION` with a value shorter than 128 bytes or a `PASSENGER_COUNT`
with a string of decimal digits representable as `int`. -/
def Call.Applicable (m : Call) : Prop :=
  m.tram_id.length < 128 ∧
    ((m.msgtype = LOCATION ∧ m.value.length < 128) ∨
      (m.msgtype = PASSENGER_COUNT ∧ IsCount m.value))

instance (m : Call) : Decidable m.Applicable := by unfold Call.Applicable; infer_instance

/-- The field a message writes in the slot of its tram. -/
def Call.write (m : Call) (t : TramInfo) : TramInfo :=
  if m.msgtype = LOCATION then { t with location := m.value }
  else { t with passenger_count := (decimal m.value : Int) }

/-- The value can be assigned by `update_tram_info`: a `LOCATION` value, copied with
`strcpy`, fits the 128-byte `location` field. -/
def ValueFits (value msgtype : List Nat) : Prop :=
  msgtype = LOCATION → value.length < FIELD_SIZE

instance (value msgtype : List Nat) : Decidable (ValueFits value msgtype) := by
  unfold ValueFits; infer_instance

/-- A call whose two `strcpy` stay inside the fields: the id is shorter than 128 bytes,
and so is the value of a `LOCATION` call. -/
def Call.Fits (c : Call) : Prop :=
  c.tram_id.length < FIELD_SIZE ∧ ValueFits c.value c.msgtype

instance (c : Call) : Decidable c.Fits := by unfold Call.Fits; infer_instance

/-- A call that sets no negative passenger count: the number of a `PASSENGER_COUNT`
value is between 0 and `INT_MAX`. -/
def Call.CountInRange (c : Call) : Prop :=
  c.msgtype = PASSENGER_COUNT → 0 ≤ atoiValue c.value ∧ atoiValue c.value ≤ INT_MAX

instance (c : Call) : Decidable c.CountInRange := by unfold Call.CountInRange; infer_instance

/-! ## Frames of arbitrary bytes -/

/-- A frame whose six contents have at most 127 bytes each, of any value. -/
def Frame.Loose (f : Frame) : Prop :=
  f.name1.length ≤ 127 ∧ f.kind.length ≤ 127 ∧ f.name2.length ≤ 127 ∧ f.id.length ≤ 127
    ∧ f.name3.length ≤ 127 ∧ f.payload.length ≤ 127

instance (f : Frame) : Decidable f.Loose := by unfold Frame.Loose; infer_instance

/-- The array one content extraction fills for the content bytes `p`: the bytes before
the first zero byte, zero bytes up to the length of `p`, and the terminator. -/
def contentArray (p : List Nat) : List Nat :=
  cstr p ++ List.replicate (p.length - (cstr p).length) 0 ++ [0]

/-- The update a frame of arbitrary bytes stands for: the strings of its second, fourth
and sixth contents when the second is `LOCATION` or `PASSENGER_COUNT`. -/
def Frame.stringCalls (f : Frame) : List Call :=
  if cstr f.kind = LOCATION ∨ cstr f.kind = PASSENGER_COUNT then
    [⟨cstr f.id, cstr f.payload, cstr f.kind⟩]
  else []

/-- The updates a sequence of frames of arbitrary bytes stands for. -/
def framesStringCalls : List Frame → List Call
  | [] => []
  | f :: fs => f.stringCalls ++ framesStringCalls fs

/-- Two frames with the same six length bytes and the same second, fourth and sixth
contents; the first, third and fifth contents (the field names) may differ. -/
def SameButNames (f g : Frame) : Prop :=
  f.name1.length = g.name1.length ∧ f.name2.length = g.name2.length
    ∧ f.name3.length = g.name3.length ∧ f.kind = g.kind ∧ f.id = g.id ∧ f.payload = g.payload

instance (f g : Frame) : Decidable (SameButNames f g) := by unfold SameButNames; infer_instance

/-! ## Values of local variables -/

/-- The value of `int content_length = buffer[i]` for a signed `char`: a byte from 128 on
is the negative number `b - 256`; `none` when `i` is outside the buffer. -/
def content_length (buffer : List Nat) (i : Nat) : Option Int :=
  match buffer.get? i with
  | none => none
  | some b => some (if b < 128 then (b : Int) else (b : Int) - 256)

/-- The value of the local variable `tram_index` of `update_tram_info` when the field is
assigned, the index of the slot that is written: the slot found by `find_tram_index`, or
`num_trams` for a tram that was not found. -/
def tram_index (F : Fleet) (tram_id : List Nat) : Nat :=
  match find_tram_index F tram_id with
  | some idx => idx
  | none => F.num_trams

/-- The run of the parse loop over a sequence of frames of any bytes, frame by frame: a
frame with a content of more than 127 bytes makes the run undefined, as does an undefined
call; the other frames make the calls of their strings. -/
def runFrames : Fleet → List Call → List Frame → Outcome (Fleet × List Call)
  | F, calls, [] => .done (F, calls)
  | F, calls, f :: fs =>
    if f.Loose then
      match applyAll F f.stringCalls with
      | some G => runFrames G (calls ++ f.stringCalls) fs
      | none => .undefined
    else .undefined

/-! ## Inputs of the scenarios -/

/-- The message of scenario 1: a location update `TRAMABC` at `CITY`. -/
def scenario1 : Call := ⟨ascii "TRAMABC", ascii "CITY", LOCATION⟩

/-- The messages of scenario 2: two trams, interleaved. -/
def scenario2 : List Call :=
  [⟨ascii "TRAM001", ascii "Flinders", LOCATION⟩,
   ⟨ascii "TRAM002", ascii "22", PASSENGER_COUNT⟩,
   ⟨ascii "TRAM001", ascii "50", PASSENGER_COUNT⟩,
   ⟨ascii "TRAM002", ascii "Williams", LOCATION⟩]

/-- The messages of scenario 5: a passenger count `10`, then `abc`, for `TRAMY`. -/
def scenario5 : List Call :=
  [⟨ascii "TRAMY", ascii "10", PASSENGER_COUNT⟩, ⟨ascii "TRAMY", ascii "abc", PASSENGER_COUNT⟩]

/-- The bytes of scenario 6: the first 32 bytes of the message of scenario 1,
`7 MSGTYPE 8 LOCATION 7 TRAM_ID 7 TRAMAB`. -/
def scenario6 : List Nat := (encode scenario1).take 32

/-- The valid message of scenario 4: a location update `TRAMX` at `Depot`. -/
def scenario4 : Call := ⟨ascii "TRAMX", ascii "Depot", LOCATION⟩

/-- A message `MSGTYPE=HEARTBEAT` with the single record `(SEQ, 17)`, followed by the
valid message of scenario 4. -/
def heartbeatOneRecord : List Nat :=
  encodeContent MSGTYPE ++ encodeContent (ascii "HEARTBEAT") ++ encodeContent (ascii "SEQ")
    ++ encodeContent (ascii "17") ++ encode scenario4

/-- A `LOCATION` message for `TRAMX` without `VALUE` record, followed by a valid
location update `TRAMY` at `Depot`. -/
def locationWithoutValue : List Nat :=
  encodeContent MSGTYPE ++ (encodeContent LOCATION ++ (encodeContent TRAM_ID ++
    encodeContent (ascii "TRAMX"))) ++ encode ⟨ascii "TRAMY", ascii "Depot", LOCATION⟩

/-- A passenger count update for `TRAMZ` whose value is `-5`. -/
def negativeCount : Call := ⟨ascii "TRAMZ", ascii "-5", PASSENGER_COUNT⟩

/-- Location updates for 100 trams with distinct one-byte ids `1, ..., 100`. -/
def hundredTrams : List Call :=
  (List.range 100).map (fun i => ⟨[i + 1], ascii "CITY", LOCATION⟩)

/-- A location update for one more tram, `TRAM101`. -/
def oneMoreTram : Call := ⟨ascii "TRAM101", ascii "CITY", LOCATION⟩

/-- A passenger count update for `TRAMZ` whose value is the digit string `2147483648`,
one more than `INT_MAX`. -/
def countBeyondInt : Call := ⟨ascii "TRAMZ", ascii "2147483648", PASSENGER_COUNT⟩

/-- A fleet that holds the two trams `A` and `B`. -/
def fleetAB : Fleet :=
  ⟨Function.update (Function.update Fleet.empty.trams 0 ⟨ascii "A", [], 0⟩) 1
    ⟨ascii "B", [], 0⟩, 2⟩

/-- A value of 133 bytes `A`. -/
def longValue : List Nat := List.replicate 133 65

/-- A fleet that holds `TRAM001` (at `Flinders`, 50 passengers) and `TRAM002` (22
passengers). -/
def fleetTwoTrams : Fleet :=
  ⟨Function.update (Function.update Fleet.empty.trams 0
    ⟨ascii "TRAM001", ascii "Flinders", 50⟩) 1 ⟨ascii "TRAM002", [], 22⟩, 2⟩

/-! ## Lemmas on the decoder -/

theorem cstr_terminated (c : List Nat) (h : ∀ x ∈ c, x ≠ 0) : cstr (c ++ [0]) = c := by
  induction c with
  | nil => simp [cstr]
  | cons a t ih =>
    have ha : a ≠ 0 := h a (by simp)
    have ht : ∀ x ∈ t, x ≠ 0 := fun x hx => h x (by simp [hx])
    have := ih ht
    simp only [cstr] at this ⊢
    simp [List.takeWhile_cons, ha, this]

theorem strncpy_exact (c rest : List Nat) (h : ∀ x ∈ c, x ≠ 0) :
    strncpy (c ++ rest) c.length = some c := by
  induction c with
  | nil => simp [strncpy]
  | cons a t ih =>
    have ha : a ≠ 0 := h a (by simp)
    have ht : ∀ x ∈ t, x ≠ 0 := fun x hx => h x (by simp [hx])
    simp [strncpy, ha, ih ht]

theorem read_content_at (pre c rest : List Nat) (hc : Wire c) :
    read_content (pre ++ (encodeContent c ++ rest)) pre.length
      = some (c ++ [0], pre.length + (encodeContent c).length) := by
  have hlen : c.length < 128 := by have := hc.1; omega
  have hd : List.drop (pre.length + 1) (pre ++ (c.length :: (c ++ rest))) = c ++ rest := by
    rw [List.drop_append_eq_append_drop]
    simp
  simp only [read_content, encodeContent, List.cons_append]
  rw [List.get?_eq_getElem?, List.getElem?_append_right (Nat.le_refl _)]
  simp only [Nat.sub_self, List.getElem?_cons_zero, hlen, if_true, hd,
    strncpy_exact c rest hc.2, Option.map_some', List.length_cons]
  congr 2
  omega

theorem encodeContent_length (c : List Nat) : (encodeContent c).length = c.length + 1 := by
  simp [encodeContent]

theorem read_contents_at (pre rest : List Nat) (f : Frame) (hf : f.Valid) :
    read_contents (pre ++ (f.encode ++ rest)) pre.length
      = some (⟨f.name1 ++ [0], f.kind ++ [0], f.name2 ++ [0], f.id ++ [0], f.name3 ++ [0],
                f.payload ++ [0]⟩, pre.length + f.encode.length) := by
  obtain ⟨h1, h2, h3, h4, h5, h6⟩ := hf
  have e1 := read_content_at pre f.name1
    (encodeContent f.kind ++ (encodeContent f.name2 ++ (encodeContent f.id ++
      (encodeContent f.name3 ++ (encodeContent f.payload ++ rest))))) h1
  have e2 := read_content_at (pre ++ encodeContent f.name1) f.kind
    (encodeContent f.name2 ++ (encodeContent f.id ++
      (encodeContent f.name3 ++ (encodeContent f.payload ++ rest)))) h2
  have e3 := read_content_at (pre ++ encodeContent f.name1 ++ encodeContent f.kind) f.name2
    (encodeContent f.id ++ (encodeContent f.name3 ++ (encodeContent f.payload ++ rest))) h3
  have e4 := read_content_at
    (pre ++ encodeContent f.name1 ++ encodeContent f.kind ++ encodeContent f.name2) f.id
    (encodeContent f.name3 ++ (encodeContent f.payload ++ rest)) h4
  have e5 := read_content_at
    (pre ++ encodeContent f.name1 ++ encodeContent f.kind ++ encodeContent f.name2
      ++ encodeContent f.id) f.name3 (encodeContent f.payload ++ rest) h5
  have e6 := read_content_at
    (pre ++ encodeContent f.name1 ++ encodeContent f.kind ++ encodeContent f.name2
      ++ encodeContent f.id ++ encodeContent f.name3) f.payload rest h6
  simp only [List.append_assoc, List.length_append, Nat.add_assoc] at e1 e2 e3 e4 e5 e6
  simp only [read_contents, Frame.encode, List.append_assoc, List.length_append,
    Option.bind_eq_bind, Option.pure_def, Nat.add_assoc]
  rw [e1]; simp only [Option.some_bind]
  rw [e2]; simp only [Option.some_bind]
  rw [e3]; simp only [Option.some_bind]
  rw [e4]; simp only [Option.some_bind]
  rw [e5]; simp only [Option.some_bind]
  rw [e6]; simp only [Option.some_bind]

theorem applyAll_nil (F : Fleet) : applyAll F [] = some F := rfl

theorem applyAll_cons (F : Fleet) (c : Call) (cs : List Call) :
    applyAll F (c :: cs)
      = (update_tram_info F c.tram_id c.value c.msgtype).bind (fun G => applyAll G cs) := by
  simp [applyAll, List.foldlM_cons]

theorem applyAll_append (F : Fleet) (a b : List Call) :
    applyAll F (a ++ b) = (applyAll F a).bind (fun G => applyAll G b) := by
  simp [applyAll, List.foldlM_append]

theorem applyAll_single (F : Fleet) (c : Call) :
    applyAll F [c] = update_tram_info F c.tram_id c.value c.msgtype := by
  rw [applyAll_cons]
  cases update_tram_info F c.tram_id c.value c.msgtype <;> simp [applyAll_nil]

theorem LOCATION_ne_PASSENGER_COUNT : LOCATION ≠ PASSENGER_COUNT := by decide

theorem dispatch_frame (f : Frame) (hf : f.Valid) (F : Fleet) (calls : List Call) :
    dispatch ⟨f.name1 ++ [0], f.kind ++ [0], f.name2 ++ [0], f.id ++ [0], f.name3 ++ [0],
        f.payload ++ [0]⟩ F calls
      = (applyAll F f.calls).map (fun G => (G, calls ++ f.calls)) := by
  obtain ⟨_, h2, _, h4, _, h6⟩ := hf
  simp only [dispatch, cstr_terminated _ h2.2, cstr_terminated _ h4.2, cstr_terminated _ h6.2,
    Frame.calls, Option.bind_eq_bind]
  by_cases hL : f.kind = LOCATION
  · have hP : ¬ LOCATION = PASSENGER_COUNT := LOCATION_ne_PASSENGER_COUNT
    simp only [hL, if_true, true_or, hP, if_false, applyAll_single]
    cases update_tram_info F f.id f.payload LOCATION <;> simp
  · by_cases hP : f.kind = PASSENGER_COUNT
    · have hL2 : ¬ PASSENGER_COUNT = LOCATION := fun h => LOCATION_ne_PASSENGER_COUNT h.symm
      simp only [hP, hL2, if_false, if_true, or_true, Option.some_bind, applyAll_single]
    · simp [hL, hP, applyAll_nil]

theorem afterCalls_nil (F : Fleet) (calls : List Call) : afterCalls F calls [] = .done (F, calls) := by
  simp [afterCalls, applyAll_nil]

theorem afterCalls_append (F : Fleet) (calls a b : List Call) :
    afterCalls F calls (a ++ b)
      = match applyAll F a with
        | some G => afterCalls G (calls ++ a) b
        | none => .undefined := by
  simp only [afterCalls, applyAll_append]
  cases applyAll F a <;> simp

theorem frame_encode_length (f : Frame) : 6 ≤ f.encode.length := by
  simp only [Frame.encode, List.length_append, encodeContent_length]
  omega

theorem parse_loop_frames (fs : List Frame) (hfs : ∀ f ∈ fs, f.Valid) :
    ∀ (pre rest : List Nat) (fuel : Nat) (F : Fleet) (calls : List Call),
      (encodeFrames fs).length ≤ fuel →
      parse_loop (pre ++ (encodeFrames fs ++ rest)) (pre.length + (encodeFrames fs).length)
          fuel pre.length F calls
        = afterCalls F calls (framesCalls fs) := by
  induction fs with
  | nil =>
    intro pre rest fuel F calls _
    cases fuel <;> simp [parse_loop, encodeFrames, framesCalls, afterCalls_nil]
  | cons f fs ih =>
    intro pre rest fuel F calls hfuel
    have hf : f.Valid := hfs f (by simp)
    have hfs2 : ∀ g ∈ fs, g.Valid := fun g hg => hfs g (by simp [hg])
    have h6 := frame_encode_length f
    simp only [encodeFrames, List.length_append] at hfuel ⊢
    obtain ⟨fuel, rfl⟩ : ∃ k, fuel = k + 1 := ⟨fuel - 1, by omega⟩
    have hlt : pre.length < pre.length + (f.encode.length + (encodeFrames fs).length) := by omega
    have hrc := read_contents_at pre (encodeFrames fs ++ rest) f hf
    simp only [parse_loop, hlt, if_true, List.append_assoc, hrc, dispatch_frame f hf,
      framesCalls, afterCalls_append]
    cases hA : applyAll F f.calls with
    | none => simp
    | some G =>
      have := ih hfs2 (pre ++ f.encode) rest fuel G (calls ++ f.calls) (by omega)
      simp only [List.append_assoc, List.length_append, Nat.add_assoc] at this
      simp only [Option.map_some']
      exact this

/-- Reading a chunk made of valid frames makes exactly the calls of the frames. -/
theorem read_once_frames (fs : List Frame) (hfs : ∀ f ∈ fs, f.Valid) (F : Fleet)
    (calls : List Call) :
    read_once F calls (encodeFrames fs) = afterCalls F calls (framesCalls fs) := by
  have := parse_loop_frames fs hfs [] (List.replicate (BUFFER_SIZE - (encodeFrames fs).length) 0)
    (encodeFrames fs).length F calls (Nat.le_refl _)
  simpa [read_once, recv] using this

theorem wire_MSGTYPE : Wire MSGTYPE := by decide

theorem wire_nil : Wire [] := by decide

theorem wire_TRAM_ID : Wire TRAM_ID := by decide

theorem wire_VALUE : Wire VALUE := by decide

theorem wire_LOCATION : Wire LOCATION := by decide

theorem wire_PASSENGER_COUNT : Wire PASSENGER_COUNT := by decide

theorem frame_valid_of_call (m : Call) (hm : m.Valid) : m.frame.Valid := by
  obtain ⟨hk, hid, hv⟩ := hm
  have hkw : Wire m.msgtype := by
    rcases hk with h | h <;> rw [h]
    · exact wire_LOCATION
    · exact wire_PASSENGER_COUNT
  exact ⟨wire_MSGTYPE, hkw, wire_TRAM_ID, hid, wire_VALUE, hv⟩

theorem frame_calls_of_call (m : Call) (hm : m.Valid) : m.frame.calls = [m] := by
  simp [Frame.calls, Call.frame, hm.1]

theorem encodeAll_eq_frames (ms : List Call) : encodeAll ms = encodeFrames (ms.map Call.frame) := by
  induction ms with
  | nil => rfl
  | cons m ms ih => simp [encodeAll, encodeFrames, encode, ih]

theorem framesCalls_of_calls (ms : List Call) (hms : ∀ m ∈ ms, m.Valid) :
    framesCalls (ms.map Call.frame) = ms := by
  induction ms with
  | nil => rfl
  | cons m ms ih =>
    have h1 := frame_calls_of_call m (hms m (by simp))
    have h2 := ih (fun x hx => hms x (by simp [hx]))
    simp [framesCalls, h1, h2]

theorem framesCalls_append (a b : List Frame) :
    framesCalls (a ++ b) = framesCalls a ++ framesCalls b := by
  induction a with
  | nil => rfl
  | cons f a ih => simp [framesCalls, ih]

theorem encodeFrames_append (a b : List Frame) :
    encodeFrames (a ++ b) = encodeFrames a ++ encodeFrames b := by
  induction a with
  | nil => rfl
  | cons f a ih => simp [encodeFrames, ih]

/-- Reading a chunk made of valid messages makes exactly the calls of the
messages. -/
theorem read_once_messages (ms : List Call) (hms : ∀ m ∈ ms, m.Valid) (F : Fleet)
    (calls : List Call) :
    read_once F calls (encodeAll ms) = afterCalls F calls ms := by
  have hv : ∀ f ∈ ms.map Call.frame, f.Valid := by
    intro f hf
    obtain ⟨m, hm, rfl⟩ := List.mem_map.1 hf
    exact frame_valid_of_call m (hms m hm)
  rw [encodeAll_eq_frames, read_once_frames _ hv, framesCalls_of_calls ms hms]

/-- Reads that each deliver whole valid messages make the calls of all the
messages in order. -/
theorem read_all_messages (mss : List (List Call)) (hms : ∀ ms ∈ mss, ∀ m ∈ ms, m.Valid) :
    ∀ (F : Fleet) (calls : List Call),
      read_all F calls (mss.map encodeAll) = afterCalls F calls mss.flatten := by
  induction mss with
  | nil => intro F calls; simp [read_all, afterCalls_nil]
  | cons ms mss ih =>
    intro F calls
    have h1 := read_once_messages ms (hms ms (by simp)) F calls
    have h2 := ih (fun x hx => hms x (by simp [hx]))
    simp only [List.map_cons, read_all, h1, List.flatten_cons, afterCalls_append]
    cases hA : applyAll F ms with
    | none => simp [afterCalls, hA]
    | some G => simp [afterCalls, hA, h2 G (calls ++ ms)]

/-! ## The decoder on a longer buffer and at an offset -/

theorem strncpy_extend (t : List Nat) :
    ∀ (s : List Nat) (n : Nat) (r : List Nat), strncpy s n = some r →
      strncpy (s ++ t) n = some r := by
  intro s
  induction s with
  | nil =>
    intro n r h
    cases n with
    | zero => cases t <;> simpa [strncpy] using h
    | succ n => simp [strncpy] at h
  | cons c cs ih =>
    intro n r h
    cases n with
    | zero => simpa [strncpy] using h
    | succ n =>
      simp only [List.cons_append, strncpy] at h ⊢
      by_cases hc : c = 0
      · simpa [hc] using h
      · simp only [hc, if_false] at h ⊢
        cases hs : strncpy cs n with
        | none => simp [hs] at h
        | some q =>
          have e := ih n q hs
          simp only [List.append_eq, e, hs] at h ⊢
          exact h

theorem read_content_extend (s t : List Nat) (i : Nat) (r : List Nat × Nat)
    (h : read_content s i = some r) : read_content (s ++ t) i = some r := by
  unfold read_content at h ⊢
  rw [List.get?_eq_getElem?] at h ⊢
  by_cases hi : i < s.length
  · rw [List.getElem?_append_left hi]
    rw [List.getElem?_eq_getElem hi] at h ⊢
    simp only at h ⊢
    by_cases hb : s[i] < 128
    · simp only [hb, if_true] at h ⊢
      have hd : List.drop (i + 1) (s ++ t) = List.drop (i + 1) s ++ t := by
        rw [List.drop_append_of_le_length (by omega)]
      cases hs : strncpy (List.drop (i + 1) s) s[i] with
      | none => simp [hs] at h
      | some q =>
        rw [hd, strncpy_extend t _ _ q hs]
        simpa [hs] using h
    · simp [hb] at h
  · rw [List.getElem?_eq_none (by omega)] at h
    cases h

theorem read_contents_extend (s t : List Nat) (i : Nat) (r : Contents × Nat)
    (h : read_contents s i = some r) : read_contents (s ++ t) i = some r := by
  simp only [read_contents, Option.bind_eq_bind, Option.pure_def] at h ⊢
  cases h1 : read_content s i with
  | none => simp [h1] at h
  | some r1 =>
    obtain ⟨c1, j1⟩ := r1
    rw [h1, Option.some_bind] at h
    rw [read_content_extend s t i _ h1, Option.some_bind]
    cases h2 : read_content s j1 with
    | none => simp [h2] at h
    | some r2 =>
      obtain ⟨c2, j2⟩ := r2
      simp only [h2, Option.some_bind] at h
      simp only [read_content_extend s t _ _ h2, Option.some_bind]
      cases h3 : read_content s j2 with
      | none => simp [h3] at h
      | some r3 =>
        obtain ⟨c3, j3⟩ := r3
        simp only [h3, Option.some_bind] at h
        simp only [read_content_extend s t _ _ h3, Option.some_bind]
        cases h4 : read_content s j3 with
        | none => simp [h4] at h
        | some r4 =>
          obtain ⟨c4, j4⟩ := r4
          simp only [h4, Option.some_bind] at h
          simp only [read_content_extend s t _ _ h4, Option.some_bind]
          cases h5 : read_content s j4 with
          | none => simp [h5] at h
          | some r5 =>
            obtain ⟨c5, j5⟩ := r5
            simp only [h5, Option.some_bind] at h
            simp only [read_content_extend s t _ _ h5, Option.some_bind]
            cases h6 : read_content s j5 with
            | none => simp [h6] at h
            | some r6 =>
              obtain ⟨c6, j6⟩ := r6
              simp only [h6, Option.some_bind] at h
              simp only [read_content_extend s t _ _ h6, Option.some_bind]
              exact h

theorem read_content_shift (pre s : List Nat) (i : Nat) :
    read_content (pre ++ s) (pre.length + i)
      = (read_content s i).map (fun r => (r.1, pre.length + r.2)) := by
  unfold read_content
  have hd : List.drop (pre.length + i + 1) (pre ++ s) = List.drop (i + 1) s := by
    rw [List.drop_append_eq_append_drop]
    have h1 : List.drop (pre.length + i + 1) pre = [] := List.drop_eq_nil_of_le (by omega)
    have h2 : pre.length + i + 1 - pre.length = i + 1 := by omega
    rw [h1, h2, List.nil_append]
  rw [List.get?_eq_getElem?, List.get?_eq_getElem?,
    List.getElem?_append_right (Nat.le_add_right _ _), Nat.add_sub_cancel_left, hd]
  cases s[i]? with
  | none => rfl
  | some b =>
    simp only
    by_cases hb : b < 128
    · simp only [hb, if_true, Option.map_map]
      cases strncpy (List.drop (i + 1) s) b with
      | none => rfl
      | some q => simp [Nat.add_assoc]
    · simp [hb]

theorem read_contents_shift (pre s : List Nat) (i : Nat) :
    read_contents (pre ++ s) (pre.length + i)
      = (read_contents s i).map (fun r => (r.1, pre.length + r.2)) := by
  simp only [read_contents, Option.bind_eq_bind, Option.pure_def]
  rw [read_content_shift]
  cases read_content s i with
  | none => rfl
  | some r1 =>
    obtain ⟨c1, j1⟩ := r1
    simp only [Option.map_some', Option.some_bind]
    rw [read_content_shift]
    cases read_content s j1 with
    | none => rfl
    | some r2 =>
      obtain ⟨c2, j2⟩ := r2
      simp only [Option.map_some', Option.some_bind]
      rw [read_content_shift]
      cases read_content s j2 with
      | none => rfl
      | some r3 =>
        obtain ⟨c3, j3⟩ := r3
        simp only [Option.map_some', Option.some_bind]
        rw [read_content_shift]
        cases read_content s j3 with
        | none => rfl
        | some r4 =>
          obtain ⟨c4, j4⟩ := r4
          simp only [Option.map_some', Option.some_bind]
          rw [read_content_shift]
          cases read_content s j4 with
          | none => rfl
          | some r5 =>
            obtain ⟨c5, j5⟩ := r5
            simp only [Option.map_some', Option.some_bind]
            rw [read_content_shift]
            cases read_content s j5 with
            | none => rfl
            | some r6 =>
              obtain ⟨c6, j6⟩ := r6
              simp only [Option.map_some', Option.some_bind]

/-! ## The parse loop: fuel, whole frames followed by more bytes -/

theorem parse_loop_succ (buffer : List Nat) (n fuel i : Nat) (F : Fleet) (calls : List Call) :
    parse_loop buffer n (fuel + 1) i F calls
      = if i < n then
          match read_contents buffer i with
          | none => Outcome.undefined
          | some (c, j) =>
            match dispatch c F calls with
            | none => Outcome.undefined
            | some (G, calls) => parse_loop buffer n fuel j G calls
        else Outcome.done (F, calls) := rfl

theorem parse_loop_fuel_succ (buffer : List Nat) (n : Nat) :
    ∀ (fuel i : Nat) (F : Fleet) (calls : List Call),
      parse_loop buffer n fuel i F calls ≠ Outcome.outOfFuel →
      parse_loop buffer n (fuel + 1) i F calls = parse_loop buffer n fuel i F calls := by
  intro fuel
  induction fuel with
  | zero =>
    intro i F calls h
    by_cases hi : i < n
    · simp [parse_loop, hi] at h
    · simp [parse_loop, hi]
  | succ fuel ih =>
    intro i F calls h
    rw [parse_loop_succ buffer n (fuel + 1), parse_loop_succ buffer n fuel]
    rw [parse_loop_succ buffer n fuel] at h
    by_cases hi : i < n
    · simp only [hi, if_true] at h ⊢
      cases hr : read_contents buffer i with
      | none => rfl
      | some r =>
        obtain ⟨c, j⟩ := r
        simp only [hr] at h ⊢
        cases hd : dispatch c F calls with
        | none => rfl
        | some q =>
          obtain ⟨G, calls2⟩ := q
          simp only [hd] at h ⊢
          exact ih j G calls2 h
    · simp only [hi, if_false]

theorem parse_loop_fuel_le (buffer : List Nat) (n fuel i : Nat) (F : Fleet) (calls : List Call)
    (h : parse_loop buffer n fuel i F calls ≠ Outcome.outOfFuel) :
    ∀ d, parse_loop buffer n (fuel + d) i F calls = parse_loop buffer n fuel i F calls := by
  intro d
  induction d with
  | zero => rfl
  | succ d ih =>
    rw [← Nat.add_assoc, parse_loop_fuel_succ buffer n (fuel + d) i F calls (by rw [ih]; exact h), ih]

theorem parse_loop_frames_then (fs : List Frame) (hfs : ∀ f ∈ fs, f.Valid) :
    ∀ (pre rest : List Nat) (fuel : Nat) (F : Fleet) (calls : List Call) (n : Nat),
      pre.length + (encodeFrames fs).length ≤ n →
      parse_loop (pre ++ (encodeFrames fs ++ rest)) n (fs.length + fuel) pre.length F calls
        = match applyAll F (framesCalls fs) with
          | none => Outcome.undefined
          | some G =>
            parse_loop (pre ++ (encodeFrames fs ++ rest)) n fuel
              (pre.length + (encodeFrames fs).length) G (calls ++ framesCalls fs) := by
  induction fs with
  | nil =>
    intro pre rest fuel F calls n _
    simp [encodeFrames, framesCalls, applyAll_nil]
  | cons f fs ih =>
    intro pre rest fuel F calls n hn
    have hf : f.Valid := hfs f (by simp)
    have hfs2 : ∀ g ∈ fs, g.Valid := fun g hg => hfs g (by simp [hg])
    have h6 := frame_encode_length f
    simp only [encodeFrames, List.length_append] at hn ⊢
    have hlt : pre.length < n := by omega
    have hrc := read_contents_at pre (encodeFrames fs ++ rest) f hf
    have hfuel : (f :: fs).length + fuel = (fs.length + fuel) + 1 := by
      simp only [List.length_cons]; omega
    rw [hfuel]
    simp only [parse_loop, hlt, if_true, List.append_assoc, hrc, dispatch_frame f hf,
      framesCalls, applyAll_append]
    cases hA : applyAll F f.calls with
    | none => simp
    | some G =>
      have := ih hfs2 (pre ++ f.encode) rest fuel G (calls ++ f.calls) n
        (by simp only [List.length_append]; omega)
      simp only [List.append_assoc, List.length_append, Nat.add_assoc] at this
      simp only [Option.map_some', Option.some_bind, Nat.add_assoc]
      exact this

theorem dispatch_unknown (c : Contents) (F : Fleet) (calls : List Call)
    (h1 : cstr c.value ≠ LOCATION) (h2 : cstr c.value ≠ PASSENGER_COUNT) :
    dispatch c F calls = some (F, calls) := by
  simp [dispatch, h1, h2]

theorem encodeFrames_length (fs : List Frame) : fs.length ≤ (encodeFrames fs).length := by
  induction fs with
  | nil => simp
  | cons f fs ih =>
    have := frame_encode_length f
    simp only [encodeFrames, List.length_append, List.length_cons]
    omega

/-- Whole valid frames followed by bytes `tail` that one more iteration consumes without
a call: the run makes the calls of the frames. -/
theorem read_once_frames_tail (fs : List Frame) (hfs : ∀ f ∈ fs, f.Valid) (tail : List Nat)
    (htail : 0 < tail.length)
    (c : Contents) (j : Nat)
    (hread : read_contents
      (tail ++ List.replicate (BUFFER_SIZE - (encodeFrames fs ++ tail).length) 0) 0 = some (c, j))
    (h1 : cstr c.value ≠ LOCATION) (h2 : cstr c.value ≠ PASSENGER_COUNT) (hj : tail.length ≤ j)
    (F : Fleet) (calls : List Call) :
    read_once F calls (encodeFrames fs ++ tail) = afterCalls F calls (framesCalls fs) := by
  have hthen := parse_loop_frames_then fs hfs []
    (tail ++ List.replicate (BUFFER_SIZE - (encodeFrames fs ++ tail).length) 0) 1 F calls
    (encodeFrames fs ++ tail).length (by simp)
  simp only [List.nil_append, List.length_nil, Nat.zero_add] at hthen
  have hlast : ∀ (G : Fleet) (cs : List Call),
      parse_loop
        (encodeFrames fs ++
          (tail ++ List.replicate (BUFFER_SIZE - (encodeFrames fs ++ tail).length) 0))
        (encodeFrames fs ++ tail).length 1 (encodeFrames fs).length G cs
        = Outcome.done (G, cs) := by
    intro G cs
    have hs := read_contents_shift (encodeFrames fs)
      (tail ++ List.replicate (BUFFER_SIZE - (encodeFrames fs ++ tail).length) 0) 0
    rw [hread] at hs
    simp only [Nat.add_zero, Option.map_some'] at hs
    have hlt : (encodeFrames fs).length < (encodeFrames fs ++ tail).length := by
      simp only [List.length_append]; omega
    have hge : ¬ (encodeFrames fs).length + j < (encodeFrames fs ++ tail).length := by
      simp only [List.length_append]; omega
    simp only [parse_loop, hlt, if_true, hs, dispatch_unknown c G cs h1 h2, hge, if_false]
  have hne : parse_loop
      (encodeFrames fs ++
        (tail ++ List.replicate (BUFFER_SIZE - (encodeFrames fs ++ tail).length) 0))
      (encodeFrames fs ++ tail).length (fs.length + 1) 0 F calls
      = afterCalls F calls (framesCalls fs) := by
    rw [hthen]
    unfold afterCalls
    cases applyAll F (framesCalls fs) with
    | none => rfl
    | some G => exact hlast G _
  have hfl := encodeFrames_length fs
  have hd : (encodeFrames fs ++ tail).length
      = (fs.length + 1) + ((encodeFrames fs ++ tail).length - (fs.length + 1)) := by
    simp only [List.length_append]; omega
  unfold read_once recv
  rw [List.append_assoc]
  conv => lhs; arg 3; rw [hd]
  rw [parse_loop_fuel_le _ _ _ _ _ _ (by rw [hne]; unfold afterCalls; split <;> simp), hne]

/-! ## Incomplete and short messages -/

theorem truncated_LOCATION : ∀ k, k < 17 → 0 < k →
    (match read_contents ((encodeContent MSGTYPE ++ encodeContent LOCATION).take k
        ++ List.replicate (28 - k) 0) 0 with
     | some (c, j) => decide (cstr c.value ≠ LOCATION ∧ cstr c.value ≠ PASSENGER_COUNT ∧ k ≤ j)
     | none => false) = true := by decide

theorem truncated_PASSENGER_COUNT : ∀ k, k < 24 → 0 < k →
    (match read_contents ((encodeContent MSGTYPE ++ encodeContent PASSENGER_COUNT).take k
        ++ List.replicate (28 - k) 0) 0 with
     | some (c, j) => decide (cstr c.value ≠ LOCATION ∧ cstr c.value ≠ PASSENGER_COUNT ∧ k ≤ j)
     | none => false) = true := by decide

theorem truncated_kind (kind : List Nat) (hkind : kind = LOCATION ∨ kind = PASSENGER_COUNT)
    (k : Nat) (hk0 : 0 < k) (hk : k < 9 + kind.length) :
    ∃ c j, read_contents ((encodeContent MSGTYPE ++ encodeContent kind).take k
        ++ List.replicate (28 - k) 0) 0 = some (c, j)
      ∧ cstr c.value ≠ LOCATION ∧ cstr c.value ≠ PASSENGER_COUNT ∧ k ≤ j := by
  rcases hkind with h | h
  · subst h
    have := truncated_LOCATION k (by simpa using hk) hk0
    split at this
    · rename_i c j heq
      exact ⟨c, j, heq, by simpa using this⟩
    · cases this
  · subst h
    have := truncated_PASSENGER_COUNT k (by simpa using hk) hk0
    split at this
    · rename_i c j heq
      exact ⟨c, j, heq, by simpa using this⟩
    · cases this

theorem encode_take (m : Call) (k : Nat) (hk : k < 9 + m.msgtype.length) :
    (encode m).take k = (encodeContent MSGTYPE ++ encodeContent m.msgtype).take k := by
  have hM : (encodeContent MSGTYPE).length = 8 := by decide
  have hl : k ≤ (encodeContent MSGTYPE ++ encodeContent m.msgtype).length := by
    simp only [List.length_append, hM, encodeContent_length]; omega
  unfold encode Frame.encode Call.frame
  simp only
  rw [← List.append_assoc, List.take_append_of_le_length hl]

/-- Whole valid messages followed by the first `k` bytes of a valid message that end
before its kind content is complete: the run makes the calls of the whole messages. -/
theorem read_once_truncated (ms : List Call) (hms : ∀ m ∈ ms, m.Valid) (m : Call)
    (hm : m.msgtype = LOCATION ∨ m.msgtype = PASSENGER_COUNT) (k : Nat) (hk0 : 0 < k)
    (hk : k < 9 + m.msgtype.length) (hlen : (encodeAll ms).length + 28 ≤ BUFFER_SIZE)
    (F : Fleet) (calls : List Call) :
    read_once F calls (encodeAll ms ++ (encode m).take k) = afterCalls F calls ms := by
  have hv : ∀ f ∈ ms.map Call.frame, f.Valid := by
    intro f hf
    obtain ⟨x, hx, rfl⟩ := List.mem_map.1 hf
    exact frame_valid_of_call x (hms x hx)
  obtain ⟨c, j, hread, h1, h2, hj⟩ := truncated_kind m.msgtype hm k hk0 hk
  have hM : (encodeContent MSGTYPE).length = 8 := by decide
  have htl : ((encodeContent MSGTYPE ++ encodeContent m.msgtype).take k).length = k := by
    rw [List.length_take, List.length_append, hM, encodeContent_length]; omega
  rw [encode_take m k hk, encodeAll_eq_frames] at *
  have hz : BUFFER_SIZE - (encodeFrames (ms.map Call.frame) ++
        (encodeContent MSGTYPE ++ encodeContent m.msgtype).take k).length
      = (28 - k) + (BUFFER_SIZE - (encodeFrames (ms.map Call.frame)).length - 28) := by
    rw [List.length_append, htl]
    have : k < 28 := by
      rcases hm with h | h <;> rw [h] at hk
      · have : LOCATION.length = 8 := by decide
        omega
      · have : PASSENGER_COUNT.length = 15 := by decide
        omega
    omega
  have hread2 := read_contents_extend _
    (List.replicate (BUFFER_SIZE - (encodeFrames (ms.map Call.frame)).length - 28) 0) 0 _ hread
  rw [List.append_assoc, ← List.replicate_add, ← hz] at hread2
  have := read_once_frames_tail (ms.map Call.frame) hv
    ((encodeContent MSGTYPE ++ encodeContent m.msgtype).take k) (by rw [htl]; exact hk0)
    c j hread2 h1 h2 (by rw [htl]; exact hj) F calls
  rw [this, framesCalls_of_calls ms hms]

/-- Whole valid messages, then a message of kind `LOCATION` or `PASSENGER_COUNT` with a
single field record `(name, val)`, then a valid message `m2` at the end of the read: the
short message is applied with `val` as id and the kind of `m2` as payload, `m2` is not. -/
theorem read_once_short_message (ms : List Call) (hms : ∀ m ∈ ms, m.Valid)
    (kind name val : List Nat) (hkind : kind = LOCATION ∨ kind = PASSENGER_COUNT)
    (hname : Wire name) (hval : Wire val) (m2 : Call) (hm2 : m2.Valid)
    (hid1 : m2.tram_id ≠ LOCATION) (hid2 : m2.tram_id ≠ PASSENGER_COUNT)
    (hlen : (encodeAll ms ++ (encodeContent MSGTYPE ++ (encodeContent kind ++
        (encodeContent name ++ encodeContent val))) ++ encode m2).length + 2 ≤ BUFFER_SIZE)
    (F : Fleet) (calls : List Call) :
    read_once F calls (encodeAll ms ++ (encodeContent MSGTYPE ++ (encodeContent kind ++
        (encodeContent name ++ encodeContent val))) ++ encode m2)
      = afterCalls F calls (ms ++ [⟨val, m2.msgtype, kind⟩]) := by
  have hkw : Wire kind := by
    rcases hkind with h | h <;> rw [h]
    · exact wire_LOCATION
    · exact wire_PASSENGER_COUNT
  have hk2w : Wire m2.msgtype := (frame_valid_of_call m2 hm2).2.1
  have hv : ∀ f ∈ ms.map Call.frame ++ [⟨MSGTYPE, kind, name, val, MSGTYPE, m2.msgtype⟩],
      f.Valid := by
    intro f hf
    rcases List.mem_append.1 hf with h | h
    · obtain ⟨x, hx, rfl⟩ := List.mem_map.1 h
      exact frame_valid_of_call x (hms x hx)
    · rw [List.mem_singleton] at h
      rw [h]
      exact ⟨wire_MSGTYPE, hkw, hname, hval, wire_MSGTYPE, hk2w⟩
  have hbytes : encodeAll ms ++ (encodeContent MSGTYPE ++ (encodeContent kind ++
        (encodeContent name ++ encodeContent val))) ++ encode m2
      = encodeFrames (ms.map Call.frame ++ [⟨MSGTYPE, kind, name, val, MSGTYPE, m2.msgtype⟩])
        ++ (encodeContent TRAM_ID ++ (encodeContent m2.tram_id ++
            (encodeContent VALUE ++ encodeContent m2.value))) := by
    simp only [encodeFrames_append, encodeFrames, encodeAll_eq_frames, encode, Frame.encode,
      Call.frame, List.append_assoc, List.append_nil]
  have hcalls : framesCalls
      (ms.map Call.frame ++ [⟨MSGTYPE, kind, name, val, MSGTYPE, m2.msgtype⟩])
      = ms ++ [⟨val, m2.msgtype, kind⟩] := by
    simp [framesCalls_append, framesCalls_of_calls ms hms, framesCalls, Frame.calls, hkind]
  rw [hbytes] at hlen ⊢
  have hg : (⟨TRAM_ID, m2.tram_id, VALUE, m2.value, [], []⟩ : Frame).Valid :=
    ⟨wire_TRAM_ID, hm2.2.1, wire_VALUE, hm2.2.2, wire_nil, wire_nil⟩
  obtain ⟨z, hz⟩ : ∃ z, BUFFER_SIZE - (encodeFrames (ms.map Call.frame ++
        [⟨MSGTYPE, kind, name, val, MSGTYPE, m2.msgtype⟩]) ++ (encodeContent TRAM_ID ++
          (encodeContent m2.tram_id ++ (encodeContent VALUE ++ encodeContent m2.value)))).length
      = z + 2 := ⟨_, (Nat.sub_add_cancel (by omega)).symm⟩
  have hread := read_contents_at [] (List.replicate z 0) _ hg
  have hpad : List.replicate (z + 2) 0 = encodeContent [] ++ (encodeContent [] ++ List.replicate z 0) := by
    simp [encodeContent, List.replicate_succ]
  have hread2 : read_contents ((encodeContent TRAM_ID ++ (encodeContent m2.tram_id ++
        (encodeContent VALUE ++ encodeContent m2.value))) ++ List.replicate (z + 2) 0) 0
      = some (⟨TRAM_ID ++ [0], m2.tram_id ++ [0], VALUE ++ [0], m2.value ++ [0], [0], [0]⟩,
          (encodeContent TRAM_ID ++ (encodeContent m2.tram_id ++
            (encodeContent VALUE ++ encodeContent m2.value))).length + 2) := by
    rw [hpad]
    simp only [Frame.encode, List.nil_append, List.length_nil, Nat.zero_add, List.append_assoc,
      List.length_append, encodeContent_length] at hread ⊢
    rw [hread]
    simp only [Option.some.injEq, Prod.mk.injEq, true_and]
    omega
  rw [← hz] at hread2
  have := read_once_frames_tail _ hv _ (by simp [encodeContent_length]) _ _ hread2
    (by rw [cstr_terminated _ hm2.2.1.2]; exact hid1)
    (by rw [cstr_terminated _ hm2.2.1.2]; exact hid2) (by omega) F calls
  rw [this, hcalls]

theorem framesCalls_eq_filter (fs : List Frame) :
    framesCalls fs
      = (fs.filter (fun f => f.kind = LOCATION ∨ f.kind = PASSENGER_COUNT)).map
          (fun f => ⟨f.id, f.payload, f.kind⟩) := by
  induction fs with
  | nil => rfl
  | cons f fs ih =>
    by_cases h : f.kind = LOCATION ∨ f.kind = PASSENGER_COUNT
    · simp [framesCalls, Frame.calls, h, ih, List.filter_cons]
    · simp [framesCalls, Frame.calls, h, ih, List.filter_cons]

/-! ## One content unit -/

theorem cstr_zero_free (p : List Nat) : ∀ x ∈ cstr p, x ≠ 0 := by
  intro x hx
  have := List.mem_takeWhile_imp hx
  simpa using this

theorem cstr_length_le (p : List Nat) : (cstr p).length ≤ p.length := by
  unfold cstr
  exact (List.takeWhile_sublist _).length_le

theorem cstr_padded (a : List Nat) (ha : ∀ x ∈ a, x ≠ 0) (k : Nat) :
    cstr (a ++ List.replicate k 0 ++ [0]) = a := by
  induction a with
  | nil => cases k <;> simp [cstr, List.replicate_succ]
  | cons x a ih =>
    have hx : x ≠ 0 := ha x (by simp)
    have := ih (fun y hy => ha y (by simp [hy]))
    simp only [cstr, List.append_assoc] at this ⊢
    simp [List.takeWhile_cons, hx, this]

theorem strncpy_prefix (rest : List Nat) :
    ∀ p : List Nat, strncpy (p ++ rest) p.length
      = some (cstr p ++ List.replicate (p.length - (cstr p).length) 0) := by
  intro p
  induction p with
  | nil => simp [strncpy, cstr]
  | cons c p ih =>
    by_cases hc : c = 0
    · subst hc
      simp [strncpy, cstr]
    · have hlen := cstr_length_le p
      have hcs : cstr (c :: p) = c :: cstr p := by simp [cstr, List.takeWhile_cons, hc]
      simp only [List.cons_append, List.length_cons, strncpy, hc, if_false, List.append_eq, ih,
        Option.map_some', hcs, Nat.add_sub_add_right]

theorem cstr_of_cstr (p : List Nat) : cstr (cstr p) = cstr p := by
  induction p with
  | nil => rfl
  | cons c p ih =>
    by_cases hc : c = 0
    · subst hc; simp [cstr]
    · simp only [cstr] at ih ⊢
      simp [List.takeWhile_cons, hc, ih]

/-! ## Lemmas on the fleet -/

theorem find_from_none (trams : Nat → TramInfo) (id : List Nat) :
    ∀ (k i : Nat), find_tram_index_from trams id k i = none ↔
      ∀ j, i ≤ j → j < i + k → (trams j).tramID ≠ id := by
  intro k
  induction k with
  | zero => intro i; simp [find_tram_index_from]; intro j h1 h2; omega
  | succ k ih =>
    intro i
    simp only [find_tram_index_from]
    by_cases h : (trams i).tramID = id
    · simp only [h, if_true]
      constructor
      · intro h0; cases h0
      · intro h0; exact absurd h (h0 i (Nat.le_refl _) (by omega))
    · simp only [h, if_false, ih]
      constructor
      · intro h0 j h1 h2
        by_cases hj : j = i
        · rw [hj]; exact h
        · exact h0 j (by omega) (by omega)
      · intro h0 j h1 h2
        exact h0 j (by omega) (by omega)

theorem find_from_some (trams : Nat → TramInfo) (id : List Nat) :
    ∀ (k i idx : Nat), find_tram_index_from trams id k i = some idx →
      i ≤ idx ∧ idx < i + k ∧ (trams idx).tramID = id
        ∧ ∀ j, i ≤ j → j < idx → (trams j).tramID ≠ id := by
  intro k
  induction k with
  | zero => intro i idx h; simp [find_tram_index_from] at h
  | succ k ih =>
    intro i idx h
    simp only [find_tram_index_from] at h
    by_cases hi : (trams i).tramID = id
    · simp only [hi, if_true, Option.some.injEq] at h
      subst h
      exact ⟨Nat.le_refl _, by omega, hi, fun j h1 h2 => by omega⟩
    · simp only [hi, if_false] at h
      obtain ⟨h1, h2, h3, h4⟩ := ih (i + 1) idx h
      refine ⟨by omega, by omega, h3, ?_⟩
      intro j hj1 hj2
      by_cases hj : j = i
      · rw [hj]; exact hi
      · exact h4 j (by omega) hj2

theorem mem_ids (F : Fleet) (id : List Nat) :
    id ∈ ids F ↔ ∃ j, j < F.num_trams ∧ (F.trams j).tramID = id := by
  simp [ids, dashboard]

theorem find_none_iff (F : Fleet) (id : List Nat) :
    find_tram_index F id = none ↔ id ∉ ids F := by
  rw [find_tram_index, find_from_none, mem_ids]
  constructor
  · rintro h ⟨j, hj, he⟩
    exact h j (Nat.zero_le _) (by omega) he
  · intro h j _ hj he
    exact h ⟨j, by omega, he⟩

theorem find_some (F : Fleet) (id : List Nat) (idx : Nat) (h : find_tram_index F id = some idx) :
    idx < F.num_trams ∧ (F.trams idx).tramID = id
      ∧ ∀ j, j < idx → (F.trams j).tramID ≠ id := by
  obtain ⟨_, h2, h3, h4⟩ := find_from_some F.trams id F.num_trams 0 idx h
  exact ⟨by omega, h3, fun j hj => h4 j (Nat.zero_le _) hj⟩

theorem assign_field_eq (F : Fleet) (idx : Nat) (value msgtype : List Nat) :
    assign_field F idx value msgtype
      = (newSlot (F.trams idx) value msgtype).map
          (fun t => ⟨Function.update F.trams idx t, F.num_trams⟩) := by
  unfold assign_field newSlot
  by_cases hL : msgtype = LOCATION
  · by_cases hv : value.length < FIELD_SIZE <;> simp [hL, hv]
  · by_cases hP : msgtype = PASSENGER_COUNT
    · subst hP
      cases hA : atoi value <;> simp [hL, hA]
    · simp [hL, hP]

/-- The two paths of `update_tram_info` in terms of the slot written. -/
theorem update_tram_info_eq (F : Fleet) (id value msgtype : List Nat) :
    update_tram_info F id value msgtype
      = match find_tram_index F id with
        | some idx => (newSlot (F.trams idx) value msgtype).map
            (fun t => ⟨Function.update F.trams idx t, F.num_trams⟩)
        | none =>
          if F.num_trams < MAX_TRAMS ∧ id.length < FIELD_SIZE then
            (newSlot { F.trams F.num_trams with tramID := id } value msgtype).map
              (fun t => ⟨Function.update F.trams F.num_trams t, F.num_trams + 1⟩)
          else none := by
  unfold update_tram_info
  cases find_tram_index F id with
  | some idx => simp [assign_field_eq]
  | none =>
    by_cases h : F.num_trams < MAX_TRAMS ∧ id.length < FIELD_SIZE
    · simp only [h, and_self, if_true, assign_field_eq, Function.update_same, Function.update_idem]
    · simp only [h, if_false]

theorem newSlot_tramID (t u : TramInfo) (value msgtype : List Nat)
    (h : newSlot t value msgtype = some u) : u.tramID = t.tramID := by
  unfold newSlot at h
  by_cases hL : msgtype = LOCATION
  · by_cases hv : value.length < FIELD_SIZE
    · simp [hL, hv] at h; rw [← h]
    · simp [hL, hv] at h
  · by_cases hP : msgtype = PASSENGER_COUNT
    · subst hP
      cases hA : atoi value with
      | none => simp [hL, hA] at h
      | some c => simp [hL, hA] at h; rw [← h]
    · simp [hL, hP] at h; rw [← h]

theorem dashboard_update_new (f : Nat → TramInfo) (n : Nat) (t : TramInfo) :
    dashboard ⟨Function.update f n t, n + 1⟩ = dashboard ⟨f, n⟩ ++ [t] := by
  simp only [dashboard, List.range_succ, List.map_append, List.map_cons, List.map_nil,
    Function.update_same]
  congr 1
  apply List.map_congr_left
  intro i hi
  have : i ≠ n := by have := List.mem_range.1 hi; omega
  simp [Function.update_noteq this]

theorem dashboard_update_old (f : Nat → TramInfo) (n idx : Nat) (t : TramInfo)
    (g : TramInfo → TramInfo) (hidx : g (f idx) = t)
    (hg : ∀ i, i < n → i ≠ idx → g (f i) = f i) :
    dashboard ⟨Function.update f idx t, n⟩ = (dashboard ⟨f, n⟩).map g := by
  simp only [dashboard, List.map_map]
  apply List.map_congr_left
  intro i hi
  have hin := List.mem_range.1 hi
  by_cases h : i = idx
  · subst h; simp [hidx]
  · simp [Function.update_noteq h, hg i hin h]

theorem ids_nodup_iff (F : Fleet) :
    (ids F).Nodup ↔ ∀ i j, i < F.num_trams → j < F.num_trams →
      (F.trams i).tramID = (F.trams j).tramID → i = j := by
  simp only [ids, dashboard, List.map_map]
  rw [List.nodup_map_iff_inj_on (List.nodup_range _)]
  simp only [List.mem_range, Function.comp]
  constructor
  · intro h i j hi hj he; exact h i hi j hj he
  · intro h i hi j hj he; exact h i j hi hj he

/-! ## Lemmas on `atoi` -/

theorem digitsValue_digits (v : List Nat) (h : ∀ c ∈ v, 48 ≤ c ∧ c ≤ 57) :
    ∀ acc, digitsValue v acc = v.foldl (fun a c => a * 10 + (c - 48)) acc := by
  induction v with
  | nil => intro acc; rfl
  | cons c r ih =>
    intro acc
    have hc := h c (by simp)
    have hd : isdigit c = true := by simp [isdigit, hc.1, hc.2]
    simp only [digitsValue, hd, if_true, List.foldl_cons]
    exact ih (fun x hx => h x (by simp [hx])) _

theorem atoiValue_digits (v : List Nat) (h : ∀ c ∈ v, 48 ≤ c ∧ c ≤ 57) :
    atoiValue v = (decimal v : Int) := by
  have hdrop : v.dropWhile isspace = v := by
    cases v with
    | nil => rfl
    | cons c r =>
      have hc := h c (by simp)
      have hs : isspace c = false := by
        simp only [isspace, Bool.or_eq_false_iff, beq_eq_false_iff_ne, Bool.and_eq_false_iff,
          decide_eq_false_iff_not]
        omega
      simp [List.dropWhile_cons, hs]
  have hv := digitsValue_digits v h 0
  unfold atoiValue
  rw [hdrop]
  split
  · have := (h 45 (by simp)).1
    omega
  · have := (h 43 (by simp)).1
    omega
  · rw [hv, decimal]

theorem atoi_in_range (s : List Nat) (h1 : INT_MIN ≤ atoiValue s) (h2 : atoiValue s ≤ INT_MAX) :
    atoi s = some (atoiValue s) := by
  simp only [INT_MIN, INT_MAX] at h1 h2
  have e1 : min LONG_MAX (atoiValue s) = atoiValue s :=
    min_eq_right (by simp only [LONG_MAX]; omega)
  have e2 : max LONG_MIN (atoiValue s) = atoiValue s :=
    max_eq_right (by simp only [LONG_MIN]; omega)
  simp only [atoi, strtol, e1, e2, long_to_int, Option.some.injEq]
  omega

theorem atoi_count (v : List Nat) (h : IsCount v) : atoi v = some (decimal v : Int) := by
  have hv := atoiValue_digits v h.1
  have h2 := h.2
  rw [← hv]
  apply atoi_in_range
  · rw [hv]; simp only [INT_MIN]; omega
  · rw [hv]; simp only [INT_MAX]; omega

theorem newSlot_applicable (m : Call) (hm : m.Applicable) (t : TramInfo) :
    newSlot t m.value m.msgtype = some (m.write t) := by
  obtain ⟨_, h | h⟩ := hm
  · simp [newSlot, Call.write, h.1, h.2, FIELD_SIZE]
  · have hne : ¬ PASSENGER_COUNT = LOCATION := fun e => LOCATION_ne_PASSENGER_COUNT e.symm
    simp [newSlot, Call.write, h.1, hne, atoi_count _ h.2]

theorem write_tramID (m : Call) (t : TramInfo) : (m.write t).tramID = t.tramID := by
  unfold Call.write
  split <;> rfl

/-! ## One update on a well-formed fleet -/

theorem dashboard_length (F : Fleet) : (dashboard F).length = F.num_trams := by
  simp [dashboard]

theorem pristine_empty : Pristine Fleet.empty := fun _ _ => rfl

theorem update_step (F : Fleet) (hP : Pristine F) (hN : (ids F).Nodup) (m : Call)
    (hm : m.Applicable) (hroom : m.tram_id ∈ ids F ∨ F.num_trams < MAX_TRAMS) :
    ∃ G, update_tram_info F m.tram_id m.value m.msgtype = some G ∧ Pristine G ∧
      dashboard G =
        (if m.tram_id ∈ ids F then
          (dashboard F).map (fun t => if t.tramID = m.tram_id then m.write t else t)
        else dashboard F ++ [m.write ⟨m.tram_id, [], 0⟩]) := by
  rw [update_tram_info_eq]
  cases hfind : find_tram_index F m.tram_id with
  | none =>
    have hnot : m.tram_id ∉ ids F := (find_none_iff F m.tram_id).1 hfind
    have hlt : F.num_trams < MAX_TRAMS := by
      rcases hroom with h | h
      · exact absurd h hnot
      · exact h
    have hlen : m.tram_id.length < FIELD_SIZE := hm.1
    have hz : F.trams F.num_trams = TramInfo.zero := hP _ (Nat.le_refl _)
    simp only [hlt, hlen, and_self, if_true, newSlot_applicable m hm, Option.map_some', hnot,
      if_false]
    refine ⟨_, rfl, ?_, ?_⟩
    · intro i hi
      have hne : i ≠ F.num_trams := by simp only at hi; omega
      simp only [Function.update_noteq hne]
      exact hP i (by simp only at hi; omega)
    · rw [dashboard_update_new, hz]
      rfl
  | some idx =>
    obtain ⟨hidx, hid, _⟩ := find_some F m.tram_id idx hfind
    have hmem : m.tram_id ∈ ids F := (mem_ids F m.tram_id).2 ⟨idx, hidx, hid⟩
    simp only [newSlot_applicable m hm, Option.map_some', hmem, if_true]
    refine ⟨_, rfl, ?_, ?_⟩
    · intro i hi
      have hne : i ≠ idx := by simp only at hi; omega
      simp only [Function.update_noteq hne]
      exact hP i hi
    · apply dashboard_update_old F.trams F.num_trams idx _
        (fun t => if t.tramID = m.tram_id then m.write t else t)
      · simp [hid]
      · intro i hi hne
        have : (F.trams i).tramID ≠ m.tram_id := by
          intro he
          exact hne ((ids_nodup_iff F).1 hN i idx hi hidx (by rw [he, hid]))
        simp [this]

/-! ## Lemmas on the specified dashboard -/

theorem firstSeen_snoc (ms : List Call) (m : Call) :
    firstSeen (ms ++ [m])
      = if m.tram_id ∈ firstSeen ms then firstSeen ms else firstSeen ms ++ [m.tram_id] := by
  simp [firstSeen, List.foldl_append]

theorem mem_firstSeen (id : List Nat) (ms : List Call) :
    id ∈ firstSeen ms ↔ ∃ m ∈ ms, m.tram_id = id := by
  induction ms using List.reverseRecOn with
  | nil => simp [firstSeen]
  | append_singleton ms m ih =>
    rw [firstSeen_snoc]
    by_cases h : m.tram_id ∈ firstSeen ms
    · simp only [h, if_true, List.mem_append, List.mem_singleton]
      constructor
      · intro hid
        obtain ⟨x, hx, he⟩ := ih.1 hid
        exact ⟨x, Or.inl hx, he⟩
      · rintro ⟨x, hx | hx, he⟩
        · exact ih.2 ⟨x, hx, he⟩
        · rw [← he, hx]; exact h
    · simp only [h, if_false, List.mem_append, List.mem_singleton]
      constructor
      · rintro (hid | hid)
        · obtain ⟨x, hx, he⟩ := ih.1 hid
          exact ⟨x, Or.inl hx, he⟩
        · exact ⟨m, Or.inr rfl, hid.symm⟩
      · rintro ⟨x, hx | hx, he⟩
        · exact Or.inl (ih.2 ⟨x, hx, he⟩)
        · right; rw [← he, hx]

theorem firstSeen_nodup (ms : List Call) : (firstSeen ms).Nodup := by
  induction ms using List.reverseRecOn with
  | nil => simp [firstSeen]
  | append_singleton ms m ih =>
    rw [firstSeen_snoc]
    by_cases h : m.tram_id ∈ firstSeen ms
    · simpa [h] using ih
    · simp only [h, if_false]
      rw [List.nodup_append]
      refine ⟨ih, List.nodup_singleton _, ?_⟩
      intro a ha hb
      rw [List.mem_singleton] at hb
      exact h (hb ▸ ha)

theorem firstSeen_length_snoc (ms : List Call) (m : Call) :
    (firstSeen ms).length ≤ (firstSeen (ms ++ [m])).length := by
  rw [firstSeen_snoc]
  split <;> simp

theorem lastValue_snoc (kind : List Nat) (ms : List Call) (m : Call) (id : List Nat) :
    lastValue kind (ms ++ [m]) id
      = if m.msgtype = kind ∧ m.tram_id = id then some m.value else lastValue kind ms id := by
  unfold lastValue
  by_cases h : m.msgtype = kind ∧ m.tram_id = id
  · simp [List.filter_append, List.filter_cons, h]
  · simp [List.filter_append, List.filter_cons, h]

theorem lastValue_none (kind : List Nat) (ms : List Call) (id : List Nat)
    (h : id ∉ firstSeen ms) : lastValue kind ms id = none := by
  have hf : ms.filter (fun m => m.msgtype = kind ∧ m.tram_id = id) = [] := by
    rw [List.filter_eq_nil_iff]
    intro x hx
    have : x.tram_id ≠ id := fun he => h ((mem_firstSeen id ms).2 ⟨x, hx, he⟩)
    simp [this]
  unfold lastValue
  rw [hf]
  rfl

theorem spec_slot_snoc (ms : List Call) (m : Call)
    (hk : m.msgtype = LOCATION ∨ m.msgtype = PASSENGER_COUNT) (id : List Nat) :
    (⟨id, specLocation (ms ++ [m]) id, specCount (ms ++ [m]) id⟩ : TramInfo)
      = if id = m.tram_id then m.write ⟨id, specLocation ms id, specCount ms id⟩
        else ⟨id, specLocation ms id, specCount ms id⟩ := by
  have hLP : ¬ LOCATION = PASSENGER_COUNT := LOCATION_ne_PASSENGER_COUNT
  have hPL : ¬ PASSENGER_COUNT = LOCATION := fun e => LOCATION_ne_PASSENGER_COUNT e.symm
  simp only [specLocation, specCount, lastValue_snoc, Call.write]
  by_cases hid : id = m.tram_id
  · subst hid
    rcases hk with h | h <;> simp [h, hLP, hPL]
  · have hid2 : ¬ m.tram_id = id := fun e => hid e.symm
    simp [hid, hid2]

theorem specDashboard_ids (ms : List Call) :
    (specDashboard ms).map TramInfo.tramID = firstSeen ms := by
  simp [specDashboard, List.map_map, Function.comp_def]

theorem specDashboard_snoc (ms : List Call) (m : Call)
    (hk : m.msgtype = LOCATION ∨ m.msgtype = PASSENGER_COUNT) :
    specDashboard (ms ++ [m])
      = if m.tram_id ∈ firstSeen ms then
          (specDashboard ms).map (fun t => if t.tramID = m.tram_id then m.write t else t)
        else specDashboard ms ++ [m.write ⟨m.tram_id, [], 0⟩] := by
  unfold specDashboard
  rw [firstSeen_snoc]
  by_cases h : m.tram_id ∈ firstSeen ms
  · simp only [h, if_true, List.map_map]
    apply List.map_congr_left
    intro id _
    simp only [Function.comp, spec_slot_snoc ms m hk id]
  · simp only [h, if_false, List.map_append, List.map_cons, List.map_nil]
    congr 1
    · apply List.map_congr_left
      intro id hid
      have hne : id ≠ m.tram_id := fun e => h (e ▸ hid)
      simp only [spec_slot_snoc ms m hk id, hne, if_false]
    · have h1 : specLocation ms m.tram_id = [] := by
        simp [specLocation, lastValue_none _ ms _ h]
      have h2 : specCount ms m.tram_id = 0 := by
        simp [specCount, lastValue_none _ ms _ h]
      simp only [spec_slot_snoc ms m hk m.tram_id, if_true, h1, h2]

/-- The fleet after a sequence of specified messages is the specified dashboard. -/
theorem applyAll_spec (ms : List Call) :
    (∀ m ∈ ms, m.Applicable) → (firstSeen ms).length ≤ MAX_TRAMS →
      ∃ F, applyAll Fleet.empty ms = some F ∧ Pristine F ∧ dashboard F = specDashboard ms := by
  induction ms using List.reverseRecOn with
  | nil =>
    intro _ _
    exact ⟨Fleet.empty, rfl, pristine_empty, rfl⟩
  | append_singleton ms m ih =>
    intro hms hcap
    have hm : m.Applicable := hms m (by simp)
    have hk : m.msgtype = LOCATION ∨ m.msgtype = PASSENGER_COUNT := by
      rcases hm.2 with h | h
      · exact Or.inl h.1
      · exact Or.inr h.1
    obtain ⟨F, hF, hP, hD⟩ := ih (fun x hx => hms x (by simp [hx]))
      (Nat.le_trans (firstSeen_length_snoc ms m) hcap)
    have hids : ids F = firstSeen ms := by rw [ids, hD, specDashboard_ids]
    have hnum : F.num_trams = (firstSeen ms).length := by
      rw [← dashboard_length, hD, ← specDashboard_ids, List.length_map]
    have hroom : m.tram_id ∈ ids F ∨ F.num_trams < MAX_TRAMS := by
      by_cases h : m.tram_id ∈ firstSeen ms
      · left; rw [hids]; exact h
      · right
        rw [firstSeen_snoc] at hcap
        simp only [h, if_false, List.length_append, List.length_singleton] at hcap
        omega
    obtain ⟨G, hG, hPG, hDG⟩ := update_step F hP (hids ▸ firstSeen_nodup ms) m hm hroom
    refine ⟨G, ?_, hPG, ?_⟩
    · rw [applyAll_append, hF, Option.some_bind, applyAll_single, hG]
    · rw [hDG, specDashboard_snoc ms m hk, hids, hD]

/-! ## Further lemmas on `find_tram_index` and `update_tram_info` -/

theorem find_from_eq_some (trams : Nat → TramInfo) (id : List Nat) :
    ∀ (k i idx : Nat), i ≤ idx → idx < i + k → (trams idx).tramID = id →
      (∀ j, i ≤ j → j < idx → (trams j).tramID ≠ id) →
      find_tram_index_from trams id k i = some idx := by
  intro k
  induction k with
  | zero => intro i idx h1 h2; omega
  | succ k ih =>
    intro i idx h1 h2 h3 h4
    simp only [find_tram_index_from]
    by_cases hi : i = idx
    · subst hi; simp [h3]
    · have hne : (trams i).tramID ≠ id := h4 i (Nat.le_refl _) (by omega)
      simp only [hne, if_false]
      exact ih (i + 1) idx (by omega) (by omega) h3 (fun j hj1 hj2 => h4 j (by omega) hj2)

theorem find_eq_some (F : Fleet) (id : List Nat) (idx : Nat) (h1 : idx < F.num_trams)
    (h2 : (F.trams idx).tramID = id) (h3 : ∀ j, j < idx → (F.trams j).tramID ≠ id) :
    find_tram_index F id = some idx :=
  find_from_eq_some F.trams id F.num_trams 0 idx (Nat.zero_le _) (by omega) h2
    (fun j _ hj => h3 j hj)

theorem newSlot_isSome (t : TramInfo) (value msgtype : List Nat) (h : ValueFits value msgtype) :
    ∃ u, newSlot t value msgtype = some u := by
  unfold newSlot
  by_cases hL : msgtype = LOCATION
  · simp [hL, h hL]
  · by_cases hP : msgtype = PASSENGER_COUNT
    · subst hP
      simp [hL, atoi]
    · simp [hL, hP]

/-- The update is defined when the slot exists and the value can be assigned. -/
theorem update_defined (F : Fleet) (id value msgtype : List Nat)
    (hroom : id ∈ ids F ∨ (F.num_trams < MAX_TRAMS ∧ id.length < FIELD_SIZE))
    (hv : ValueFits value msgtype) :
    ∃ G, update_tram_info F id value msgtype = some G := by
  rw [update_tram_info_eq]
  cases hfind : find_tram_index F id with
  | some idx =>
    obtain ⟨u, hu⟩ := newSlot_isSome (F.trams idx) value msgtype hv
    refine ⟨⟨Function.update F.trams idx u, F.num_trams⟩, ?_⟩
    simp only [hu, Option.map_some']
  | none =>
    have hnot := (find_none_iff F id).1 hfind
    have hr : F.num_trams < MAX_TRAMS ∧ id.length < FIELD_SIZE := by
      rcases hroom with h | h
      · exact absurd h hnot
      · exact h
    obtain ⟨u, hu⟩ := newSlot_isSome { F.trams F.num_trams with tramID := id } value msgtype hv
    refine ⟨⟨Function.update F.trams F.num_trams u, F.num_trams + 1⟩, ?_⟩
    simp only [hr, and_self, if_true, hu, Option.map_some']

/-- What an update does, whatever the fleet: the slot `idx` of the tram (the first
slot with that id, or the new slot `num_trams`) is overwritten with `u`, the slot as it
was, with the id set and the field assigned. -/
theorem update_shape (F G : Fleet) (id value msgtype : List Nat)
    (h : update_tram_info F id value msgtype = some G) :
    ∃ idx u, G.trams = Function.update F.trams idx u ∧ u.tramID = id ∧
      newSlot { F.trams idx with tramID := id } value msgtype = some u ∧
      find_tram_index G id = some idx ∧
      ((find_tram_index F id = some idx ∧ G.num_trams = F.num_trams) ∨
        (find_tram_index F id = none ∧ idx = F.num_trams ∧ G.num_trams = F.num_trams + 1
          ∧ F.num_trams < MAX_TRAMS ∧ id.length < FIELD_SIZE)) := by
  rw [update_tram_info_eq] at h
  cases hfind : find_tram_index F id with
  | some idx =>
    rw [hfind] at h
    obtain ⟨hidx, hid, hfirst⟩ := find_some F id idx hfind
    cases hu : newSlot (F.trams idx) value msgtype with
    | none => simp [hu] at h
    | some u =>
      simp only [hu, Option.map_some', Option.some.injEq] at h
      subst h
      have hut : u.tramID = id := by rw [newSlot_tramID _ _ _ _ hu, hid]
      have hsame : ({ F.trams idx with tramID := id } : TramInfo) = F.trams idx := by
        rw [← hid]
      refine ⟨idx, u, rfl, hut, by rw [hsame, hu], ?_, Or.inl ⟨rfl, rfl⟩⟩
      apply find_eq_some ⟨Function.update F.trams idx u, F.num_trams⟩ id idx hidx
      · simp [hut]
      · intro j hj
        have hne : j ≠ idx := by omega
        simp only [Function.update_noteq hne]
        exact hfirst j hj
  | none =>
    rw [hfind] at h
    have hnot := (find_none_iff F id).1 hfind
    by_cases hr : F.num_trams < MAX_TRAMS ∧ id.length < FIELD_SIZE
    · simp only [hr, and_self, if_true] at h
      cases hu : newSlot { F.trams F.num_trams with tramID := id } value msgtype with
      | none => simp [hu] at h
      | some u =>
        simp only [hu, Option.map_some', Option.some.injEq] at h
        subst h
        have hut : u.tramID = id := by rw [newSlot_tramID _ _ _ _ hu]
        refine ⟨F.num_trams, u, rfl, hut, hu, ?_, Or.inr ⟨rfl, rfl, rfl, hr.1, hr.2⟩⟩
        apply find_eq_some ⟨Function.update F.trams F.num_trams u, F.num_trams + 1⟩ id
          F.num_trams (by simp)
        · simp [hut]
        · intro j hj
          have hne : j ≠ F.num_trams := by omega
          simp only [Function.update_noteq hne]
          intro he
          exact hnot ((mem_ids F id).2 ⟨j, hj, he⟩)
    · simp only [hr, if_false] at h
      cases h

/-- The ids of the fleet after an update: unchanged when the id was present, extended
by the id otherwise. -/
theorem ids_update (F G : Fleet) (id value msgtype : List Nat)
    (h : update_tram_info F id value msgtype = some G) :
    ids G = if id ∈ ids F then ids F else ids F ++ [id] := by
  obtain ⟨idx, u, hG, hut, _, _, hcase⟩ := update_shape F G id value msgtype h
  rcases hcase with ⟨hfind, hnum⟩ | ⟨hfind, hidx, hnum, _, _⟩
  · obtain ⟨hidx, hid, _⟩ := find_some F id idx hfind
    have hmem : id ∈ ids F := (mem_ids F id).2 ⟨idx, hidx, hid⟩
    rw [if_pos hmem]
    simp only [ids, dashboard, List.map_map, hnum, hG]
    apply List.map_congr_left
    intro i _
    by_cases hi : i = idx
    · subst hi; simp [hut, hid]
    · simp [Function.update_noteq hi]
  · have hnot := (find_none_iff F id).1 hfind
    subst hidx
    have hd : dashboard G = dashboard F ++ [u] := by
      have := dashboard_update_new F.trams F.num_trams u
      rw [← hG, ← hnum] at this
      exact this
    rw [if_neg hnot]
    simp only [ids, hd, List.map_append, List.map_cons, List.map_nil, hut]

/-- A property of fleets kept by every update of a class of calls is kept by a
sequence of such calls. -/
theorem applyAll_invariant (P : Fleet → Prop) (Q : Call → Prop)
    (step : ∀ F G c, P F → Q c → update_tram_info F c.tram_id c.value c.msgtype = some G → P G) :
    ∀ (calls : List Call) (F G : Fleet), P F → (∀ c ∈ calls, Q c) →
      applyAll F calls = some G → P G := by
  intro calls
  induction calls with
  | nil =>
    intro F G hF _ h
    simp only [applyAll_nil, Option.some.injEq] at h
    exact h ▸ hF
  | cons c cs ih =>
    intro F G hF hQ h
    rw [applyAll_cons] at h
    cases hu : update_tram_info F c.tram_id c.value c.msgtype with
    | none => simp [hu] at h
    | some H =>
      simp only [hu, Option.some_bind] at h
      exact ih H G (step F H c hF (hQ c (by simp)) hu) (fun x hx => hQ x (by simp [hx])) h

theorem cstr_eq_self (p : List Nat) (h : ∀ x ∈ p, x ≠ 0) : cstr p = p := by
  unfold cstr
  rw [List.takeWhile_eq_self_iff]
  intro x hx
  simpa using h x hx

/-- One content extraction on a unit that lies in the buffer, whatever its bytes. -/
theorem read_content_unit (pre payload rest : List Nat) (hL : payload.length ≤ 127) :
    read_content (pre ++ (encodeContent payload ++ rest)) pre.length
      = some (cstr payload ++ List.replicate (payload.length - (cstr payload).length) 0 ++ [0],
          pre.length + (payload.length + 1)) := by
  have hlen : payload.length < 128 := by omega
  have hd : List.drop (pre.length + 1) (pre ++ (payload.length :: (payload ++ rest)))
      = payload ++ rest := by
    rw [List.drop_append_eq_append_drop]
    simp
  simp only [read_content, encodeContent, List.cons_append]
  rw [List.get?_eq_getElem?, List.getElem?_append_right (Nat.le_refl _)]
  simp only [Nat.sub_self, List.getElem?_cons_zero, hlen, if_true, hd,
    strncpy_prefix rest payload, Option.map_some']
  congr 2
  omega

/-! ## Lemmas on the sign of the passenger count -/

theorem newSlot_count_nonneg (t u : TramInfo) (value msgtype : List Nat)
    (h : newSlot t value msgtype = some u)
    (hv : msgtype = PASSENGER_COUNT → 0 ≤ atoiValue value ∧ atoiValue value ≤ INT_MAX)
    (ht : 0 ≤ t.passenger_count) : 0 ≤ u.passenger_count := by
  unfold newSlot at h
  by_cases hL : msgtype = LOCATION
  · by_cases hl : value.length < FIELD_SIZE
    · simp only [hL, hl, if_true, Option.some.injEq] at h
      rw [← h]; exact ht
    · simp [hL, hl] at h
  · by_cases hP : msgtype = PASSENGER_COUNT
    · obtain ⟨h0, h1⟩ := hv hP
      have hne : ¬ PASSENGER_COUNT = LOCATION := fun e => LOCATION_ne_PASSENGER_COUNT e.symm
      have ha := atoi_in_range value (by simp only [INT_MIN]; omega) h1
      subst hP
      simp only [hne, if_false, if_true, ha, Option.map_some', Option.some.injEq] at h
      rw [← h]; exact h0
    · simp only [hL, hP, if_false, Option.some.injEq] at h
      rw [← h]; exact ht

theorem update_count_nonneg (F G : Fleet) (c : Call)
    (hF : ∀ i, 0 ≤ (F.trams i).passenger_count) (hv : c.CountInRange)
    (h : update_tram_info F c.tram_id c.value c.msgtype = some G) :
    ∀ i, 0 ≤ (G.trams i).passenger_count := by
  obtain ⟨idx, u, hG, _, hu, _, _⟩ := update_shape F G c.tram_id c.value c.msgtype h
  intro i
  rw [hG]
  by_cases hi : i = idx
  · subst hi
    rw [Function.update_same]
    exact newSlot_count_nonneg _ u c.value c.msgtype hu hv (hF i)
  · rw [Function.update_noteq hi]
    exact hF i

theorem ids_nodup_update (F G : Fleet) (id value msgtype : List Nat) (hN : (ids F).Nodup)
    (h : update_tram_info F id value msgtype = some G) : (ids G).Nodup := by
  rw [ids_update F G id value msgtype h]
  by_cases hmem : id ∈ ids F
  · rw [if_pos hmem]; exact hN
  · rw [if_neg hmem, List.nodup_append]
    refine ⟨hN, List.nodup_singleton _, ?_⟩
    intro a ha hb
    rw [List.mem_singleton] at hb
    exact hmem (hb ▸ ha)

/-! ## The field assignment, case by case -/

theorem newSlot_location (t u : TramInfo) (value : List Nat)
    (h : newSlot t value LOCATION = some u) : u = { t with location := value } := by
  unfold newSlot at h
  by_cases hl : value.length < FIELD_SIZE
  · simp only [if_true, hl, Option.some.injEq] at h
    exact h.symm
  · simp [hl] at h

theorem newSlot_passenger_count (t u : TramInfo) (value : List Nat)
    (h : newSlot t value PASSENGER_COUNT = some u) :
    ∃ c, atoi value = some c ∧ u = { t with passenger_count := c } := by
  have hne : ¬ PASSENGER_COUNT = LOCATION := fun e => LOCATION_ne_PASSENGER_COUNT e.symm
  unfold newSlot at h
  simp only [hne, if_false, if_true] at h
  cases ha : atoi value with
  | none => simp [ha] at h
  | some c =>
    simp only [ha, Option.map_some', Option.some.injEq] at h
    exact ⟨c, rfl, h.symm⟩

theorem newSlot_other (t u : TramInfo) (value msgtype : List Nat) (h1 : msgtype ≠ LOCATION)
    (h2 : msgtype ≠ PASSENGER_COUNT) (h : newSlot t value msgtype = some u) : u = t := by
  unfold newSlot at h
  simp only [h1, h2, if_false, Option.some.injEq] at h
  exact h.symm

theorem newSlot_idem (t u : TramInfo) (value msgtype : List Nat)
    (h : newSlot t value msgtype = some u) : newSlot u value msgtype = some u := by
  by_cases hL : msgtype = LOCATION
  · subst hL
    have hu := newSlot_location t u value h
    unfold newSlot at h ⊢
    by_cases hl : value.length < FIELD_SIZE
    · simp only [if_true, hl, Option.some.injEq]
      rw [hu]
    · simp [hl] at h
  · by_cases hP : msgtype = PASSENGER_COUNT
    · subst hP
      obtain ⟨c, hc, hu⟩ := newSlot_passenger_count t u value h
      unfold newSlot
      simp only [hL, if_false, if_true, hc, Option.map_some', Option.some.injEq]
      rw [hu]
    · have hu := newSlot_other t u value msgtype hL hP h
      subst hu
      exact h

/-- The same call made again on the fleet it produced leaves that fleet as it is. -/
theorem update_again (F G : Fleet) (id value msgtype : List Nat)
    (h : update_tram_info F id value msgtype = some G) :
    update_tram_info G id value msgtype = some G := by
  obtain ⟨idx, u, hG, _, hu, hfind, _⟩ := update_shape F G id value msgtype h
  have hGi : G.trams idx = u := by rw [hG, Function.update_same]
  have hidem := newSlot_idem _ u value msgtype hu
  rw [update_tram_info_eq, hfind]
  simp only [hGi, hidem, Option.map_some']
  have : Function.update G.trams idx u = G.trams := by
    rw [← hGi]; exact Function.update_eq_self idx G.trams
  rw [this]

/-! ## The parse loop on frames of arbitrary bytes -/

theorem cstr_contentArray (p : List Nat) : cstr (contentArray p) = cstr p :=
  cstr_padded (cstr p) (cstr_zero_free p) _

theorem read_content_loose (pre p rest : List Nat) (hL : p.length ≤ 127) :
    read_content (pre ++ (encodeContent p ++ rest)) pre.length
      = some (contentArray p, pre.length + (encodeContent p).length) := by
  rw [read_content_unit pre p rest hL, encodeContent_length]
  rfl

theorem read_contents_loose (pre rest : List Nat) (f : Frame) (hf : f.Loose) :
    read_contents (pre ++ (f.encode ++ rest)) pre.length
      = some (⟨contentArray f.name1, contentArray f.kind, contentArray f.name2,
                contentArray f.id, contentArray f.name3, contentArray f.payload⟩,
              pre.length + f.encode.length) := by
  obtain ⟨h1, h2, h3, h4, h5, h6⟩ := hf
  have e1 := read_content_loose pre f.name1
    (encodeContent f.kind ++ (encodeContent f.name2 ++ (encodeContent f.id ++
      (encodeContent f.name3 ++ (encodeContent f.payload ++ rest))))) h1
  have e2 := read_content_loose (pre ++ encodeContent f.name1) f.kind
    (encodeContent f.name2 ++ (encodeContent f.id ++
      (encodeContent f.name3 ++ (encodeContent f.payload ++ rest)))) h2
  have e3 := read_content_loose (pre ++ encodeContent f.name1 ++ encodeContent f.kind) f.name2
    (encodeContent f.id ++ (encodeContent f.name3 ++ (encodeContent f.payload ++ rest))) h3
  have e4 := read_content_loose
    (pre ++ encodeContent f.name1 ++ encodeContent f.kind ++ encodeContent f.name2) f.id
    (encodeContent f.name3 ++ (encodeContent f.payload ++ rest)) h4
  have e5 := read_content_loose
    (pre ++ encodeContent f.name1 ++ encodeContent f.kind ++ encodeContent f.name2
      ++ encodeContent f.id) f.name3 (encodeContent f.payload ++ rest) h5
  have e6 := read_content_loose
    (pre ++ encodeContent f.name1 ++ encodeContent f.kind ++ encodeContent f.name2
      ++ encodeContent f.id ++ encodeContent f.name3) f.payload rest h6
  simp only [List.append_assoc, List.length_append, Nat.add_assoc] at e1 e2 e3 e4 e5 e6
  simp only [read_contents, Frame.encode, List.append_assoc, List.length_append,
    Option.bind_eq_bind, Option.pure_def, Nat.add_assoc]
  rw [e1]; simp only [Option.some_bind]
  rw [e2]; simp only [Option.some_bind]
  rw [e3]; simp only [Option.some_bind]
  rw [e4]; simp only [Option.some_bind]
  rw [e5]; simp only [Option.some_bind]
  rw [e6]; simp only [Option.some_bind]

theorem dispatch_loose (f : Frame) (F : Fleet) (calls : List Call) :
    dispatch ⟨contentArray f.name1, contentArray f.kind, contentArray f.name2,
        contentArray f.id, contentArray f.name3, contentArray f.payload⟩ F calls
      = (applyAll F f.stringCalls).map (fun G => (G, calls ++ f.stringCalls)) := by
  simp only [dispatch, cstr_contentArray, Frame.stringCalls, Option.bind_eq_bind]
  by_cases hL : cstr f.kind = LOCATION
  · have hP : ¬ LOCATION = PASSENGER_COUNT := LOCATION_ne_PASSENGER_COUNT
    simp only [hL, if_true, true_or, hP, if_false, applyAll_single]
    cases update_tram_info F (cstr f.id) (cstr f.payload) LOCATION <;> simp
  · by_cases hP : cstr f.kind = PASSENGER_COUNT
    · have hL2 : ¬ PASSENGER_COUNT = LOCATION := fun h => LOCATION_ne_PASSENGER_COUNT h.symm
      simp only [hP, hL2, if_false, if_true, or_true, Option.some_bind, applyAll_single]
    · simp [hL, hP, applyAll_nil]

theorem parse_loop_loose (fs : List Frame) (hfs : ∀ f ∈ fs, f.Loose) :
    ∀ (pre rest : List Nat) (fuel : Nat) (F : Fleet) (calls : List Call),
      (encodeFrames fs).length ≤ fuel →
      parse_loop (pre ++ (encodeFrames fs ++ rest)) (pre.length + (encodeFrames fs).length)
          fuel pre.length F calls
        = afterCalls F calls (framesStringCalls fs) := by
  induction fs with
  | nil =>
    intro pre rest fuel F calls _
    cases fuel <;> simp [parse_loop, encodeFrames, framesStringCalls, afterCalls_nil]
  | cons f fs ih =>
    intro pre rest fuel F calls hfuel
    have hf : f.Loose := hfs f (by simp)
    have hfs2 : ∀ g ∈ fs, g.Loose := fun g hg => hfs g (by simp [hg])
    have h6 := frame_encode_length f
    simp only [encodeFrames, List.length_append] at hfuel ⊢
    obtain ⟨fuel, rfl⟩ : ∃ k, fuel = k + 1 := ⟨fuel - 1, by omega⟩
    have hlt : pre.length < pre.length + (f.encode.length + (encodeFrames fs).length) := by omega
    have hrc := read_contents_loose pre (encodeFrames fs ++ rest) f hf
    simp only [parse_loop, hlt, if_true, List.append_assoc, hrc, dispatch_loose f,
      framesStringCalls, afterCalls_append]
    cases hA : applyAll F f.stringCalls with
    | none => simp
    | some G =>
      have := ih hfs2 (pre ++ f.encode) rest fuel G (calls ++ f.stringCalls) (by omega)
      simp only [List.append_assoc, List.length_append, Nat.add_assoc] at this
      simp only [Option.map_some']
      exact this

/-- Reading a chunk made of frames of arbitrary bytes makes the calls of the strings in
second, fourth and sixth position. -/
theorem read_once_loose (fs : List Frame) (hfs : ∀ f ∈ fs, f.Loose) (F : Fleet)
    (calls : List Call) :
    read_once F calls (encodeFrames fs) = afterCalls F calls (framesStringCalls fs) := by
  have := parse_loop_loose fs hfs [] (List.replicate (BUFFER_SIZE - (encodeFrames fs).length) 0)
    (encodeFrames fs).length F calls (Nat.le_refl _)
  simpa [read_once, recv] using this

theorem sameButNames_calls (fs gs : List Frame) (h : List.Forall₂ SameButNames fs gs) :
    framesStringCalls fs = framesStringCalls gs := by
  induction h with
  | nil => rfl
  | cons hfg _ ih =>
    obtain ⟨_, _, _, hk, hi, hp⟩ := hfg
    simp only [framesStringCalls, Frame.stringCalls, hk, hi, hp, ih]

theorem sameButNames_length (fs gs : List Frame) (h : List.Forall₂ SameButNames fs gs) :
    (encodeFrames fs).length = (encodeFrames gs).length := by
  induction h with
  | nil => rfl
  | cons hfg _ ih =>
    obtain ⟨h1, h2, h3, hk, hi, hp⟩ := hfg
    simp only [encodeFrames, Frame.encode, List.length_append, encodeContent_length, h1, h2, h3,
      hk, hi, hp, ih]

/-! ## What one iteration reads -/

theorem strncpy_length : ∀ (s : List Nat) (n : Nat) (r : List Nat),
    strncpy s n = some r → r.length = n := by
  intro s
  induction s with
  | nil =>
    intro n r h
    cases n with
    | zero => simp only [strncpy, Option.some.injEq] at h; rw [← h]; rfl
    | succ n => simp [strncpy] at h
  | cons c cs ih =>
    intro n r h
    cases n with
    | zero => simp only [strncpy, Option.some.injEq] at h; rw [← h]; rfl
    | succ n =>
      simp only [strncpy] at h
      by_cases hc : c = 0
      · simp only [hc, if_true, Option.some.injEq] at h
        rw [← h, List.length_replicate]
      · simp only [hc, if_false] at h
        cases hs : strncpy cs n with
        | none => simp [hs] at h
        | some q =>
          simp only [hs, Option.map_some', Option.some.injEq] at h
          rw [← h, List.length_cons, ih n q hs]

theorem read_content_inv (buffer : List Nat) (i : Nat) (c : List Nat) (j : Nat)
    (h : read_content buffer i = some (c, j)) :
    ∃ b r, buffer.get? i = some b ∧ b < 128 ∧ strncpy (buffer.drop (i + 1)) b = some r
      ∧ c = r ++ [0] ∧ j = i + 1 + b := by
  unfold read_content at h
  cases hb : buffer.get? i with
  | none => rw [hb] at h; cases h
  | some b =>
    rw [hb] at h
    simp only at h
    by_cases hlt : b < 128
    · simp only [hlt, if_true] at h
      cases hs : strncpy (buffer.drop (i + 1)) b with
      | none => simp [hs] at h
      | some r =>
        simp only [hs, Option.map_some', Option.some.injEq, Prod.mk.injEq] at h
        exact ⟨b, r, rfl, hlt, hs, h.1.symm, h.2.symm⟩
    · simp [hlt] at h

theorem cstr_append_zero (r t : List Nat) : cstr (r ++ 0 :: t) = cstr r := by
  induction r with
  | nil => simp [cstr]
  | cons x r ih =>
    simp only [cstr] at ih ⊢
    by_cases hx : x = 0
    · simp [List.takeWhile_cons, hx]
    · simp [List.takeWhile_cons, hx, ih]

theorem read_content_advances (buffer : List Nat) (i : Nat) (c : List Nat) (j : Nat)
    (h : read_content buffer i = some (c, j)) : i + 1 ≤ j ∧ (cstr c).length ≤ 127 := by
  obtain ⟨b, r, _, hlt, hs, hc, hj⟩ := read_content_inv buffer i c j h
  have hr := strncpy_length _ _ _ hs
  have hl := cstr_length_le r
  refine ⟨by omega, ?_⟩
  rw [hc, cstr_append_zero]
  omega

theorem read_contents_inv (buffer : List Nat) (i : Nat) (c : Contents) (j : Nat)
    (h : read_contents buffer i = some (c, j)) :
    ∃ i1 i2 i3 i4 i5, read_content buffer i = some (c.msgtype, i1)
      ∧ read_content buffer i1 = some (c.value, i2)
      ∧ read_content buffer i2 = some (c.tram_id, i3)
      ∧ read_content buffer i3 = some (c.tram_id_value, i4)
      ∧ read_content buffer i4 = some (c.value_padding, i5)
      ∧ read_content buffer i5 = some (c.payload, j) := by
  simp only [read_contents, Option.bind_eq_bind, Option.pure_def] at h
  cases h1 : read_content buffer i with
  | none => simp [h1] at h
  | some r1 =>
    obtain ⟨c1, j1⟩ := r1
    simp only [h1, Option.some_bind] at h
    cases h2 : read_content buffer j1 with
    | none => simp [h2] at h
    | some r2 =>
      obtain ⟨c2, j2⟩ := r2
      simp only [h2, Option.some_bind] at h
      cases h3 : read_content buffer j2 with
      | none => simp [h3] at h
      | some r3 =>
        obtain ⟨c3, j3⟩ := r3
        simp only [h3, Option.some_bind] at h
        cases h4 : read_content buffer j3 with
        | none => simp [h4] at h
        | some r4 =>
          obtain ⟨c4, j4⟩ := r4
          simp only [h4, Option.some_bind] at h
          cases h5 : read_content buffer j4 with
          | none => simp [h5] at h
          | some r5 =>
            obtain ⟨c5, j5⟩ := r5
            simp only [h5, Option.some_bind] at h
            cases h6 : read_content buffer j5 with
            | none => simp [h6] at h
            | some r6 =>
              obtain ⟨c6, j6⟩ := r6
              simp only [h6, Option.some_bind, Option.some.injEq, Prod.mk.injEq] at h
              obtain ⟨hc, hj⟩ := h
              subst hc hj
              exact ⟨j1, j2, j3, j4, j5, rfl, h2, h3, h4, h5, h6⟩

/-- An iteration whose six content extractions are defined advances `i` by at least 6,
and the strings it extracts have at most 127 bytes. -/
theorem read_contents_advances (buffer : List Nat) (i : Nat) (c : Contents) (j : Nat)
    (h : read_contents buffer i = some (c, j)) :
    i + 6 ≤ j ∧ (cstr c.tram_id_value).length ≤ 127 ∧ (cstr c.payload).length ≤ 127 := by
  obtain ⟨i1, i2, i3, i4, i5, h1, h2, h3, h4, h5, h6⟩ := read_contents_inv buffer i c j h
  have a1 := read_content_advances _ _ _ _ h1
  have a2 := read_content_advances _ _ _ _ h2
  have a3 := read_content_advances _ _ _ _ h3
  have a4 := read_content_advances _ _ _ _ h4
  have a5 := read_content_advances _ _ _ _ h5
  have a6 := read_content_advances _ _ _ _ h6
  exact ⟨by omega, a4.2, a6.2⟩

/-- With six bytes of read size per unit of fuel the parse loop does not run out of
fuel. -/
theorem parse_loop_enough_fuel (buffer : List Nat) (n : Nat) :
    ∀ (fuel i : Nat) (F : Fleet) (calls : List Call), n ≤ i + 6 * fuel →
      parse_loop buffer n fuel i F calls ≠ Outcome.outOfFuel := by
  intro fuel
  induction fuel with
  | zero =>
    intro i F calls h
    have : ¬ i < n := by omega
    simp [parse_loop, this]
  | succ fuel ih =>
    intro i F calls h
    rw [parse_loop_succ]
    by_cases hi : i < n
    · simp only [hi, if_true]
      cases hr : read_contents buffer i with
      | none => simp
      | some r =>
        obtain ⟨c, j⟩ := r
        have hadv := (read_contents_advances buffer i c j hr).1
        simp only
        cases hd : dispatch c F calls with
        | none => simp
        | some q =>
          obtain ⟨G, calls2⟩ := q
          simp only
          exact ih j G calls2 (by omega)
    · simp [hi]

theorem dispatch_calls (c : Contents) (F G : Fleet) (calls calls2 : List Call)
    (h : dispatch c F calls = some (G, calls2)) :
    ∀ x ∈ calls2, x ∈ calls
      ∨ (x.tram_id = cstr c.tram_id_value ∧ x.value = cstr c.payload) := by
  simp only [dispatch, Option.bind_eq_bind] at h
  by_cases hL : cstr c.value = LOCATION
  · have hP : ¬ LOCATION = PASSENGER_COUNT := LOCATION_ne_PASSENGER_COUNT
    simp only [hL, if_true, hP, if_false] at h
    cases hu : update_tram_info F (cstr c.tram_id_value) (cstr c.payload) LOCATION with
    | none => simp [hu] at h
    | some H =>
      simp only [hu, Option.map_some', Option.some_bind, Option.some.injEq, Prod.mk.injEq] at h
      intro x hx
      rw [← h.2, List.mem_append, List.mem_singleton] at hx
      rcases hx with hx | hx
      · exact Or.inl hx
      · right; rw [hx]; exact ⟨rfl, rfl⟩
  · simp only [hL, if_false, Option.some_bind] at h
    by_cases hP : cstr c.value = PASSENGER_COUNT
    · simp only [hP, if_true] at h
      cases hu : update_tram_info F (cstr c.tram_id_value) (cstr c.payload) PASSENGER_COUNT with
      | none => simp [hu] at h
      | some H =>
        simp only [hu, Option.map_some', Option.some.injEq, Prod.mk.injEq] at h
        intro x hx
        rw [← h.2, List.mem_append, List.mem_singleton] at hx
        rcases hx with hx | hx
        · exact Or.inl hx
        · right; rw [hx]; exact ⟨rfl, rfl⟩
    · simp only [hP, if_false, Option.some.injEq, Prod.mk.injEq] at h
      intro x hx
      rw [← h.2] at hx
      exact Or.inl hx

/-- Every call recorded by a finished run of the parse loop has an id and a value of at
most 127 bytes, when the calls recorded before the run have. -/
theorem parse_loop_calls_fit (buffer : List Nat) (n : Nat) :
    ∀ (fuel i : Nat) (F G : Fleet) (calls calls2 : List Call),
      (∀ x ∈ calls, x.tram_id.length ≤ 127 ∧ x.value.length ≤ 127) →
      parse_loop buffer n fuel i F calls = Outcome.done (G, calls2) →
      ∀ x ∈ calls2, x.tram_id.length ≤ 127 ∧ x.value.length ≤ 127 := by
  intro fuel
  induction fuel with
  | zero =>
    intro i F G calls calls2 hc h
    by_cases hi : i < n
    · simp [parse_loop, hi] at h
    · simp only [parse_loop, hi, if_false, Outcome.done.injEq, Prod.mk.injEq] at h
      rw [← h.2]; exact hc
  | succ fuel ih =>
    intro i F G calls calls2 hc h
    rw [parse_loop_succ] at h
    by_cases hi : i < n
    · simp only [hi, if_true] at h
      cases hr : read_contents buffer i with
      | none => simp [hr] at h
      | some r =>
        obtain ⟨c, j⟩ := r
        simp only [hr] at h
        have hadv := read_contents_advances buffer i c j hr
        cases hd : dispatch c F calls with
        | none => simp [hd] at h
        | some q =>
          obtain ⟨H, calls3⟩ := q
          simp only [hd] at h
          apply ih j H G calls3 calls2 _ h
          intro x hx
          rcases dispatch_calls c F H calls calls3 hd x hx with hx | ⟨h1, h2⟩
          · exact hc x hx
          · rw [h1, h2]; exact ⟨hadv.2.1, hadv.2.2⟩
    · simp only [hi, if_false, Outcome.done.injEq, Prod.mk.injEq] at h
      rw [← h.2]; exact hc

theorem read_content_negative (buffer : List Nat) (i : Nat) (v : Int)
    (h : content_length buffer i = some v) (hv : v < 0) : read_content buffer i = none := by
  unfold content_length at h
  unfold read_content
  cases hb : buffer.get? i with
  | none => rfl
  | some b =>
    rw [hb] at h
    simp only [Option.some.injEq] at h
    by_cases hlt : b < 128
    · simp only [hlt, if_true] at h
      omega
    · simp [hlt]

/-- On a full fleet a call for an id that is not present is undefined: it writes the
slot `MAX_TRAMS`. -/
theorem update_full (F : Fleet) (id value msgtype : List Nat) (hfull : F.num_trams = MAX_TRAMS)
    (hnew : id ∉ ids F) :
    update_tram_info F id value msgtype = none ∧ tram_index F id = MAX_TRAMS := by
  have hfind := (find_none_iff F id).2 hnew
  constructor
  · rw [update_tram_info_eq, hfind]
    simp [hfull]
  · simp [tram_index, hfind, hfull]

/-! ## The capacity of the array -/

/-- A defined call on a fleet of at most `MAX_TRAMS` trams writes a slot of the array and
leaves at most `MAX_TRAMS` trams. -/
theorem update_within_capacity (F G : Fleet) (id value msgtype : List Nat)
    (hcap : F.num_trams ≤ MAX_TRAMS) (h : update_tram_info F id value msgtype = some G) :
    tram_index F id < MAX_TRAMS ∧ G.num_trams ≤ MAX_TRAMS := by
  obtain ⟨idx, u, _, _, _, _, hcase⟩ := update_shape F G id value msgtype h
  rcases hcase with ⟨hfind, hnum⟩ | ⟨hfind, _, hnum, hlt, _⟩
  · obtain ⟨hidx, _, _⟩ := find_some F id idx hfind
    simp only [tram_index, hfind]
    omega
  · simp only [tram_index, hfind]
    omega

set_option maxRecDepth 100000 in
theorem firstSeen_hundredTrams : (firstSeen hundredTrams).length = 100 := by decide

set_option maxRecDepth 100000 in
theorem oneMoreTram_new : oneMoreTram.tram_id ∉ firstSeen hundredTrams := by decide

set_option maxRecDepth 100000 in
theorem read_past_buffer : read_contents (recv (List.replicate 255 100)) 0 = none := by decide

theorem hundredTrams_applicable : ∀ m ∈ hundredTrams, m.Applicable := by decide

/-! ## The parse loop on frames with contents of any length -/

theorem read_content_too_long (pre p rest : List Nat) (h : ¬ p.length ≤ 127) :
    read_content (pre ++ (encodeContent p ++ rest)) pre.length = none := by
  have hlen : ¬ p.length < 128 := by omega
  simp only [read_content, encodeContent, List.cons_append]
  rw [List.get?_eq_getElem?, List.getElem?_append_right (Nat.le_refl _)]
  simp only [Nat.sub_self, List.getElem?_cons_zero, hlen, if_false]

theorem read_contents_not_loose (pre rest : List Nat) (f : Frame) (hf : ¬ f.Loose) :
    read_contents (pre ++ (f.encode ++ rest)) pre.length = none := by
  have e1 := read_content_loose pre f.name1
    (encodeContent f.kind ++ (encodeContent f.name2 ++ (encodeContent f.id ++
      (encodeContent f.name3 ++ (encodeContent f.payload ++ rest)))))
  have e2 := read_content_loose (pre ++ encodeContent f.name1) f.kind
    (encodeContent f.name2 ++ (encodeContent f.id ++
      (encodeContent f.name3 ++ (encodeContent f.payload ++ rest))))
  have e3 := read_content_loose (pre ++ encodeContent f.name1 ++ encodeContent f.kind) f.name2
    (encodeContent f.id ++ (encodeContent f.name3 ++ (encodeContent f.payload ++ rest)))
  have e4 := read_content_loose
    (pre ++ encodeContent f.name1 ++ encodeContent f.kind ++ encodeContent f.name2) f.id
    (encodeContent f.name3 ++ (encodeContent f.payload ++ rest))
  have e5 := read_content_loose
    (pre ++ encodeContent f.name1 ++ encodeContent f.kind ++ encodeContent f.name2
      ++ encodeContent f.id) f.name3 (encodeContent f.payload ++ rest)
  have n1 := read_content_too_long pre f.name1
    (encodeContent f.kind ++ (encodeContent f.name2 ++ (encodeContent f.id ++
      (encodeContent f.name3 ++ (encodeContent f.payload ++ rest)))))
  have n2 := read_content_too_long (pre ++ encodeContent f.name1) f.kind
    (encodeContent f.name2 ++ (encodeContent f.id ++
      (encodeContent f.name3 ++ (encodeContent f.payload ++ rest))))
  have n3 := read_content_too_long (pre ++ encodeContent f.name1 ++ encodeContent f.kind) f.name2
    (encodeContent f.id ++ (encodeContent f.name3 ++ (encodeContent f.payload ++ rest)))
  have n4 := read_content_too_long
    (pre ++ encodeContent f.name1 ++ encodeContent f.kind ++ encodeContent f.name2) f.id
    (encodeContent f.name3 ++ (encodeContent f.payload ++ rest))
  have n5 := read_content_too_long
    (pre ++ encodeContent f.name1 ++ encodeContent f.kind ++ encodeContent f.name2
      ++ encodeContent f.id) f.name3 (encodeContent f.payload ++ rest)
  have n6 := read_content_too_long
    (pre ++ encodeContent f.name1 ++ encodeContent f.kind ++ encodeContent f.name2
      ++ encodeContent f.id ++ encodeContent f.name3) f.payload rest
  simp only [List.append_assoc, List.length_append, Nat.add_assoc] at e1 e2 e3 e4 e5 n1 n2 n3 n4 n5 n6
  simp only [read_contents, Frame.encode, List.append_assoc, List.length_append,
    Option.bind_eq_bind, Option.pure_def, Nat.add_assoc]
  by_cases h1 : f.name1.length ≤ 127
  · rw [e1 h1]; simp only [Option.some_bind]
    by_cases h2 : f.kind.length ≤ 127
    · rw [e2 h2]; simp only [Option.some_bind]
      by_cases h3 : f.name2.length ≤ 127
      · rw [e3 h3]; simp only [Option.some_bind]
        by_cases h4 : f.id.length ≤ 127
        · rw [e4 h4]; simp only [Option.some_bind]
          by_cases h5 : f.name3.length ≤ 127
          · rw [e5 h5]; simp only [Option.some_bind]
            by_cases h6 : f.payload.length ≤ 127
            · exact absurd ⟨h1, h2, h3, h4, h5, h6⟩ hf
            · rw [n6 h6]; rfl
          · rw [n5 h5]; rfl
        · rw [n4 h4]; rfl
      · rw [n3 h3]; rfl
    · rw [n2 h2]; rfl
  · rw [n1 h1]; rfl

theorem parse_loop_any_frames (fs : List Frame) :
    ∀ (pre rest : List Nat) (fuel : Nat) (F : Fleet) (calls : List Call),
      (encodeFrames fs).length ≤ fuel →
      parse_loop (pre ++ (encodeFrames fs ++ rest)) (pre.length + (encodeFrames fs).length)
          fuel pre.length F calls
        = runFrames F calls fs := by
  induction fs with
  | nil =>
    intro pre rest fuel F calls _
    cases fuel <;> simp [parse_loop, encodeFrames, runFrames]
  | cons f fs ih =>
    intro pre rest fuel F calls hfuel
    have h6 := frame_encode_length f
    simp only [encodeFrames, List.length_append] at hfuel ⊢
    obtain ⟨fuel, rfl⟩ : ∃ k, fuel = k + 1 := ⟨fuel - 1, by omega⟩
    have hlt : pre.length < pre.length + (f.encode.length + (encodeFrames fs).length) := by omega
    by_cases hf : f.Loose
    · have hrc := read_contents_loose pre (encodeFrames fs ++ rest) f hf
      simp only [parse_loop, hlt, if_true, List.append_assoc, hrc, dispatch_loose f, runFrames,
        hf]
      cases hA : applyAll F f.stringCalls with
      | none => simp
      | some G =>
        have := ih (pre ++ f.encode) rest fuel G (calls ++ f.stringCalls) (by omega)
        simp only [List.append_assoc, List.length_append, Nat.add_assoc] at this
        simp only [Option.map_some']
        exact this
    · have hrc := read_contents_not_loose pre (encodeFrames fs ++ rest) f hf
      simp only [parse_loop, hlt, if_true, List.append_assoc, hrc, runFrames, hf, if_false]

/-- Reading a chunk made of frames of any bytes is the run over the frames. -/
theorem read_once_any_frames (fs : List Frame) (F : Fleet) (calls : List Call) :
    read_once F calls (encodeFrames fs) = runFrames F calls fs := by
  have := parse_loop_any_frames fs [] (List.replicate (BUFFER_SIZE - (encodeFrames fs).length) 0)
    (encodeFrames fs).length F calls (Nat.le_refl _)
  simpa [read_once, recv] using this

theorem sameButNames_loose (f g : Frame) (h : SameButNames f g) : f.Loose ↔ g.Loose := by
  obtain ⟨h1, h2, h3, hk, hi, hp⟩ := h
  simp only [Frame.Loose, h1, h2, h3, hk, hi, hp]

theorem sameButNames_run (fs gs : List Frame) (h : List.Forall₂ SameButNames fs gs) :
    ∀ (F : Fleet) (calls : List Call), runFrames F calls fs = runFrames F calls gs := by
  induction h with
  | nil => intro F calls; rfl
  | cons hfg _ ih =>
    intro F calls
    have hl := sameButNames_loose _ _ hfg
    obtain ⟨_, _, _, hk, hi, hp⟩ := hfg
    simp only [runFrames, Frame.stringCalls, hk, hi, hp, hl, ih]

/-! ## Sequences of calls whose strings fit the fields -/

theorem ids_length (F : Fleet) : (ids F).length = F.num_trams := by
  simp [ids, dashboard]

/-- A sequence of calls whose strings fit the fields, with at most `MAX_TRAMS` distinct
ids, is defined from the empty fleet and leaves the ids in order of first appearance. -/
theorem applyAll_defined (calls : List Call) :
    (∀ c ∈ calls, c.Fits) → (firstSeen calls).length ≤ MAX_TRAMS →
      ∃ F, applyAll Fleet.empty calls = some F ∧ ids F = firstSeen calls := by
  induction calls using List.reverseRecOn with
  | nil =>
    intro _ _
    exact ⟨Fleet.empty, rfl, rfl⟩
  | append_singleton ms m ih =>
    intro hfit hcap
    have hm : m.Fits := hfit m (by simp)
    obtain ⟨F, hF, hids⟩ := ih (fun x hx => hfit x (by simp [hx]))
      (Nat.le_trans (firstSeen_length_snoc ms m) hcap)
    have hnum : F.num_trams = (firstSeen ms).length := by rw [← ids_length, hids]
    have hroom : m.tram_id ∈ ids F ∨ (F.num_trams < MAX_TRAMS ∧ m.tram_id.length < FIELD_SIZE) := by
      by_cases h : m.tram_id ∈ firstSeen ms
      · left; rw [hids]; exact h
      · right
        rw [firstSeen_snoc] at hcap
        simp only [h, if_false, List.length_append, List.length_singleton] at hcap
        exact ⟨by omega, hm.1⟩
    obtain ⟨G, hG⟩ := update_defined F m.tram_id m.value m.msgtype hroom hm.2
    refine ⟨G, ?_, ?_⟩
    · rw [applyAll_append, hF, Option.some_bind, applyAll_single, hG]
    · rw [ids_update F G m.tram_id m.value m.msgtype hG, hids, firstSeen_snoc]

set_option maxRecDepth 100000 in
theorem longValue_length : longValue.length = 133 := by decide

set_option maxRecDepth 100000 in
theorem update_longValue_undefined :
    (update_tram_info fleetAB (ascii "A") longValue LOCATION).map ids = none := by decide

/-! ## Settled claims -/

/-- C1. For every list of valid messages (kind `LOCATION` or `PASSENGER_COUNT`, every
content at most 127 bytes and free of zero bytes) whose encoding of at most 255 bytes
arrives in one read, the parse loop makes exactly the calls
`update_tram_info(id, payload, kind)` of the messages, in message order, and no other:
the run is the run of those calls from the fleet it started with (finished with the
updated fleet and the call list extended by the messages, or undefined when one of
these calls is undefined in C). -/
theorem C1_parse_loop_one_update_per_message (ms : List Call) (hms : ∀ m ∈ ms, m.Valid)
    (_hlen : (encodeAll ms).length ≤ BUFFER_SIZE) (F : Fleet) (calls : List Call) :
    read_once F calls (encodeAll ms)
      = (match applyAll F ms with
         | some G => Outcome.done (G, calls ++ ms)
         | none => Outcome.undefined) :=
  read_once_messages ms hms F calls

/-- C1, at the bytes `7 MSGTYPE 8 LOCATION 7 TRAM_ID 7 TRAMABC 5 VALUE 4 CITY`: the
single update `(TRAMABC, CITY, LOCATION)`. -/
theorem C1_witness :
    encodeAll [scenario1]
        = [7, 77, 83, 71, 84, 89, 80, 69, 8, 76, 79, 67, 65, 84, 73, 79, 78, 7, 84, 82, 65,
           77, 95, 73, 68, 7, 84, 82, 65, 77, 65, 66, 67, 5, 86, 65, 76, 85, 69, 4, 67, 73,
           84, 89]
      ∧ observe (read_once Fleet.empty [] (encodeAll [scenario1]))
        = Outcome.done ([⟨ascii "TRAMABC", ascii "CITY", 0⟩],
            [⟨ascii "TRAMABC", ascii "CITY", LOCATION⟩]) := by
  refine ⟨by decide, ?_⟩
  rw [C1_parse_loop_one_update_per_message [scenario1] (by decide) (by decide) Fleet.empty []]
  decide

/-- C2, refuted as stated: the bytes of scenario 1 are a valid encoded message; split
into non-empty reads of one byte each, the read and parse loops apply no update at all
and the fleet stays empty, while the same bytes in one read apply the update
`(TRAMABC, CITY, LOCATION)`. -/
theorem C2_counterexample :
    scenario1.Valid
      ∧ ((encodeAll [scenario1]).map (fun b => [b])).flatten = encodeAll [scenario1]
      ∧ (∀ c ∈ (encodeAll [scenario1]).map (fun b => [b]), c ≠ [])
      ∧ observe (read_all Fleet.empty [] ((encodeAll [scenario1]).map (fun b => [b])))
          = Outcome.done ([], [])
      ∧ observe (read_all Fleet.empty [] [encodeAll [scenario1]])
          = Outcome.done ([⟨ascii "TRAMABC", ascii "CITY", 0⟩], [scenario1]) := by
  refine ⟨by decide, by decide, by decide, by decide, by decide⟩

/-- C2, amended: for every sequence of reads each of which delivers whole valid
messages (at most 255 bytes per read), the calls made by the read and parse loops are
the messages encoded, in order, whatever the grouping of the messages into reads: the
run is the run of those calls from the fleet it started with. -/
theorem C2_whole_message_reads (mss : List (List Call))
    (hms : ∀ ms ∈ mss, ∀ m ∈ ms, m.Valid)
    (_hlen : ∀ ms ∈ mss, (encodeAll ms).length ≤ BUFFER_SIZE) (F : Fleet) (calls : List Call) :
    read_all F calls (mss.map encodeAll)
      = (match applyAll F mss.flatten with
         | some G => Outcome.done (G, calls ++ mss.flatten)
         | none => Outcome.undefined) :=
  read_all_messages mss hms F calls

/-- C2 amended, at two groupings of the same three messages. -/
theorem C2_whole_message_reads_witness :
    observe (read_all Fleet.empty [] ([[scenario1], [scenario1, scenario1]].map encodeAll))
      = Outcome.done ([⟨ascii "TRAMABC", ascii "CITY", 0⟩], [scenario1, scenario1, scenario1])
    ∧ observe (read_all Fleet.empty [] ([[scenario1, scenario1], [scenario1]].map encodeAll))
      = Outcome.done ([⟨ascii "TRAMABC", ascii "CITY", 0⟩], [scenario1, scenario1, scenario1]) := by
  constructor
  · rw [C2_whole_message_reads [[scenario1], [scenario1, scenario1]] (by decide) (by decide)
      Fleet.empty []]
    decide
  · rw [C2_whole_message_reads [[scenario1, scenario1], [scenario1]] (by decide) (by decide)
      Fleet.empty []]
    decide

/-- C3. For every sequence of messages applied in order with `update_tram_info` to the
empty fleet, with ids and location values shorter than 128 bytes, count values strings
of decimal digits representable as `int`, and at most `MAX_TRAMS` distinct ids: every
call is defined, the slots `0..num_trams-1` hold exactly the distinct ids in order of
first appearance, each with the value of the last `LOCATION` message for its id (the
initial empty string if none) and the number of the last `PASSENGER_COUNT` message for
its id (the initial `0` if none). -/
theorem C3_fleet_is_fold_of_messages (ms : List Call) (hms : ∀ m ∈ ms, m.Applicable)
    (hcap : (firstSeen ms).length ≤ MAX_TRAMS) :
    ∃ F, applyAll Fleet.empty ms = some F
      ∧ F.num_trams = (firstSeen ms).length
      ∧ ids F = firstSeen ms
      ∧ dashboard F
          = (firstSeen ms).map (fun id => ⟨id, specLocation ms id, specCount ms id⟩) := by
  obtain ⟨F, hF, _, hD⟩ := applyAll_spec ms hms hcap
  refine ⟨F, hF, ?_, ?_, hD⟩
  · rw [← dashboard_length, hD, ← specDashboard_ids, List.length_map]
  · rw [ids, hD, specDashboard_ids]

/-- C3, at scenario 2: the fleet is `[(TRAM001, Flinders, 50), (TRAM002, Williams, 22)]`. -/
theorem C3_witness :
    (∃ F, applyAll Fleet.empty scenario2 = some F
      ∧ F.num_trams = (firstSeen scenario2).length
      ∧ ids F = firstSeen scenario2
      ∧ dashboard F
          = (firstSeen scenario2).map
              (fun id => ⟨id, specLocation scenario2 id, specCount scenario2 id⟩))
    ∧ (applyAll Fleet.empty scenario2).map dashboard
        = some [⟨ascii "TRAM001", ascii "Flinders", 50⟩, ⟨ascii "TRAM002", ascii "Williams", 22⟩]
    ∧ (firstSeen scenario2).map
          (fun id => (⟨id, specLocation scenario2 id, specCount scenario2 id⟩ : TramInfo))
        = [⟨ascii "TRAM001", ascii "Flinders", 50⟩, ⟨ascii "TRAM002", ascii "Williams", 22⟩] :=
  ⟨C3_fleet_is_fold_of_messages scenario2 (by decide) (by decide), by decide, by decide⟩

/-- C4, refuted as stated: the value `abc` is not a string of decimal digits, and after
`PASSENGER_COUNT TRAMY 10` the update `PASSENGER_COUNT TRAMY abc` changes the passenger
count of `TRAMY` from 10 to 0. -/
theorem C4_counterexample :
    ¬ (∀ c ∈ ascii "abc", 48 ≤ c ∧ c ≤ 57)
      ∧ (applyAll Fleet.empty (scenario5.take 1)).map dashboard
          = some [⟨ascii "TRAMY", [], 10⟩]
      ∧ (applyAll Fleet.empty scenario5).map dashboard = some [⟨ascii "TRAMY", [], 0⟩] := by
  refine ⟨by decide, by decide, by decide⟩

/-- C4, amended: for every fleet state and every `PASSENGER_COUNT` update for a tram that
is present or has room, whose value has an `atoi` result `c` representable as `int`
(whether or not it is a string of digits), `update_tram_info` is defined and sets the
passenger count of that tram to `c`; the count is left as it was only when it was `c`. -/
theorem C4_passenger_count_becomes_atoi (F : Fleet) (id value : List Nat) (c : Int)
    (hroom : id ∈ ids F ∨ (F.num_trams < MAX_TRAMS ∧ id.length < FIELD_SIZE))
    (hv : atoi value = some c) :
    ∃ G idx, update_tram_info F id value PASSENGER_COUNT = some G
      ∧ find_tram_index G id = some idx ∧ (G.trams idx).passenger_count = c := by
  have hok : ValueFits value PASSENGER_COUNT :=
    fun e => absurd e.symm LOCATION_ne_PASSENGER_COUNT
  obtain ⟨G, hG⟩ := update_defined F id value PASSENGER_COUNT hroom hok
  obtain ⟨idx, u, hGt, _, hu, hfind, _⟩ := update_shape F G id value PASSENGER_COUNT hG
  refine ⟨G, idx, hG, hfind, ?_⟩
  have hne : ¬ PASSENGER_COUNT = LOCATION := fun e => LOCATION_ne_PASSENGER_COUNT e.symm
  simp only [newSlot, hne, if_false, if_true, hv, Option.map_some', Option.some.injEq] at hu
  rw [hGt, Function.update_same, ← hu]

/-- C4 amended, at `abc` on the fleet that holds `TRAMY` with passenger count 10:
`atoi` gives 0 and the passenger count of `TRAMY` becomes 0. -/
theorem C4_passenger_count_becomes_atoi_witness :
    atoi (ascii "abc") = some 0
      ∧ ∃ G idx, update_tram_info
            ⟨Function.update Fleet.empty.trams 0 ⟨ascii "TRAMY", [], 10⟩, 1⟩
            (ascii "TRAMY") (ascii "abc") PASSENGER_COUNT = some G
          ∧ find_tram_index G (ascii "TRAMY") = some idx ∧ (G.trams idx).passenger_count = 0 :=
  ⟨by decide,
   C4_passenger_count_becomes_atoi
     ⟨Function.update Fleet.empty.trams 0 ⟨ascii "TRAMY", [], 10⟩, 1⟩
     (ascii "TRAMY") (ascii "abc") 0 (by decide) (by decide)⟩

/-- C5, refuted as stated: the 32 bytes `7 MSGTYPE 8 LOCATION 7 TRAM_ID 7 TRAMAB` end in
the middle of a message, and delivered to the empty fleet they make the parse loop call
`update_tram_info(TRAMAB, "", LOCATION)`: the fleet then holds one tram. -/
theorem C5_counterexample :
    scenario6
        = [7, 77, 83, 71, 84, 89, 80, 69, 8, 76, 79, 67, 65, 84, 73, 79, 78, 7, 84, 82, 65,
           77, 95, 73, 68, 7, 84, 82, 65, 77, 65, 66]
      ∧ observe (read_once Fleet.empty [] scenario6)
          = Outcome.done ([⟨ascii "TRAMAB", [], 0⟩], [⟨ascii "TRAMAB", [], LOCATION⟩]) := by
  refine ⟨by decide, by decide⟩

/-- C5, amended: for every read made of whole valid messages (at most 227 bytes of them)
followed by the first `k` bytes of a valid message, where these bytes end before the kind
content of that message is complete (`0 < k < 9 + length of the kind`), the parse loop
makes the calls of the whole messages and no call for the incomplete one. -/
theorem C5_no_update_before_kind_complete (ms : List Call) (hms : ∀ m ∈ ms, m.Valid)
    (m : Call) (hm : m.Valid) (k : Nat) (hk0 : 0 < k) (hk : k < 9 + m.msgtype.length)
    (hlen : (encodeAll ms).length + 28 ≤ BUFFER_SIZE) (F : Fleet) (calls : List Call) :
    read_once F calls (encodeAll ms ++ (encode m).take k)
      = (match applyAll F ms with
         | some G => Outcome.done (G, calls ++ ms)
         | none => Outcome.undefined) :=
  read_once_truncated ms hms m hm.1 k hk0 hk hlen F calls

/-- C5 amended, at the first 16 bytes `7 MSGTYPE 8 LOCATIO` of the message of scenario 1,
alone and after one whole message. -/
theorem C5_no_update_before_kind_complete_witness :
    observe (read_once Fleet.empty [] (encodeAll [] ++ (encode scenario1).take 16))
        = Outcome.done ([], [])
      ∧ observe (read_once Fleet.empty [] (encodeAll [scenario4] ++ (encode scenario1).take 16))
        = Outcome.done ([⟨ascii "TRAMX", ascii "Depot", 0⟩], [scenario4]) := by
  constructor
  · rw [C5_no_update_before_kind_complete [] (by decide) scenario1 (by decide) 16 (by decide)
      (by decide) (by decide) Fleet.empty []]
    decide
  · rw [C5_no_update_before_kind_complete [scenario4] (by decide) scenario1 (by decide) 16
      (by decide) (by decide) (by decide) Fleet.empty []]
    decide

/-- C6, refuted as stated: a message `MSGTYPE=HEARTBEAT` that carries one field record,
followed by the valid message `LOCATION TRAMX Depot`, leaves the fleet empty: the valid
message is not applied. -/
theorem C6_counterexample :
    ascii "HEARTBEAT" ≠ LOCATION ∧ ascii "HEARTBEAT" ≠ PASSENGER_COUNT
      ∧ scenario4.Valid
      ∧ observe (read_once Fleet.empty [] heartbeatOneRecord) = Outcome.done ([], [])
      ∧ observe (read_once Fleet.empty [] (encode scenario4))
          = Outcome.done ([⟨ascii "TRAMX", ascii "Depot", 0⟩], [scenario4]) := by
  refine ⟨by decide, by decide, by decide, by decide, by decide⟩

/-- C6, amended: for every message whose `MSGTYPE` value is neither `LOCATION` nor
`PASSENGER_COUNT` and that carries exactly two field records (six contents in all, each at
most 127 bytes without zero byte), between whole valid messages in one read: the parse
loop makes no call for it and makes the calls of the valid messages before and after it,
exactly as for the read without the unknown message. -/
theorem C6_unknown_kind_with_two_records (ms1 ms2 : List Call) (h1 : ∀ m ∈ ms1, m.Valid)
    (h2 : ∀ m ∈ ms2, m.Valid) (kind n1 v1 n2 v2 : List Nat)
    (hu : (⟨MSGTYPE, kind, n1, v1, n2, v2⟩ : Frame).Valid)
    (hk1 : kind ≠ LOCATION) (hk2 : kind ≠ PASSENGER_COUNT)
    (_hlen : (encodeAll ms1 ++ (Frame.encode ⟨MSGTYPE, kind, n1, v1, n2, v2⟩ ++ encodeAll ms2)).length
      ≤ BUFFER_SIZE)
    (F : Fleet) (calls : List Call) :
    read_once F calls (encodeAll ms1 ++ (Frame.encode ⟨MSGTYPE, kind, n1, v1, n2, v2⟩ ++ encodeAll ms2))
        = (match applyAll F (ms1 ++ ms2) with
           | some G => Outcome.done (G, calls ++ (ms1 ++ ms2))
           | none => Outcome.undefined)
      ∧ read_once F calls (encodeAll ms1 ++ (Frame.encode ⟨MSGTYPE, kind, n1, v1, n2, v2⟩ ++ encodeAll ms2))
        = read_once F calls (encodeAll ms1 ++ encodeAll ms2) := by
  have hv : ∀ f ∈ ms1.map Call.frame ++ (⟨MSGTYPE, kind, n1, v1, n2, v2⟩ :: ms2.map Call.frame),
      f.Valid := by
    intro f hf
    rcases List.mem_append.1 hf with h | h
    · obtain ⟨x, hx, rfl⟩ := List.mem_map.1 h
      exact frame_valid_of_call x (h1 x hx)
    · rcases List.mem_cons.1 h with h | h
      · rw [h]; exact hu
      · obtain ⟨x, hx, rfl⟩ := List.mem_map.1 h
        exact frame_valid_of_call x (h2 x hx)
  have hb : encodeAll ms1 ++ (Frame.encode ⟨MSGTYPE, kind, n1, v1, n2, v2⟩ ++ encodeAll ms2)
      = encodeFrames (ms1.map Call.frame ++ (⟨MSGTYPE, kind, n1, v1, n2, v2⟩ :: ms2.map Call.frame)) := by
    simp only [encodeFrames_append, encodeFrames, encodeAll_eq_frames]
  have hc : framesCalls (ms1.map Call.frame ++ (⟨MSGTYPE, kind, n1, v1, n2, v2⟩ :: ms2.map Call.frame))
      = ms1 ++ ms2 := by
    simp [framesCalls_append, framesCalls, framesCalls_of_calls ms1 h1,
      framesCalls_of_calls ms2 h2, Frame.calls, hk1, hk2]
  have hall : ∀ m ∈ ms1 ++ ms2, m.Valid := by
    intro m hm
    rcases List.mem_append.1 hm with h | h
    · exact h1 m h
    · exact h2 m h
  have hb2 : encodeAll ms1 ++ encodeAll ms2 = encodeAll (ms1 ++ ms2) := by
    simp only [encodeAll_eq_frames, List.map_append, encodeFrames_append]
  have e1 := read_once_frames _ hv F calls
  rw [← hb, hc] at e1
  refine ⟨e1, ?_⟩
  rw [e1, hb2, read_once_messages (ms1 ++ ms2) hall F calls]

/-- C6 amended, at scenario 4: `MSGTYPE=HEARTBEAT` with the two records `(SEQ, 17)` and
`(SRC, A)` followed by `LOCATION TRAMX Depot` ends with the fleet `[(TRAMX, Depot)]`. -/
theorem C6_unknown_kind_with_two_records_witness :
    observe (read_once Fleet.empty []
        (encodeAll [] ++ (Frame.encode ⟨MSGTYPE, ascii "HEARTBEAT", ascii "SEQ", ascii "17",
          ascii "SRC", ascii "A"⟩ ++ encodeAll [scenario4])))
      = Outcome.done ([⟨ascii "TRAMX", ascii "Depot", 0⟩], [scenario4]) := by
  rw [(C6_unknown_kind_with_two_records [] [scenario4] (by decide) (by decide)
    (ascii "HEARTBEAT") (ascii "SEQ") (ascii "17") (ascii "SRC") (ascii "A") (by decide)
    (by decide) (by decide) (by decide) Fleet.empty []).1]
  decide

/-- C7, refuted as stated: a `LOCATION` message for `TRAMX` that has no `VALUE` record,
followed by the valid message `LOCATION TRAMY Depot`, is not dropped: the parse loop calls
`update_tram_info(TRAMX, "LOCATION", LOCATION)`, so the fleet is mutated by it, and the
message for `TRAMY` after it is not applied. -/
theorem C7_counterexample :
    observe (read_once Fleet.empty [] locationWithoutValue)
      = Outcome.done ([⟨ascii "TRAMX", LOCATION, 0⟩], [⟨ascii "TRAMX", LOCATION, LOCATION⟩]) := by
  decide

/-- C7, amended: the parse loop takes six contents by position and checks no field. For
whole valid messages followed by a message of kind `LOCATION` or `PASSENGER_COUNT` that
has one field record `(name, val)` only, followed by a valid message `m2` that ends the
read (its id not one of the two kind words, two bytes of the buffer left): the short
message is not dropped, the parse loop calls `update_tram_info(val, kind of m2, kind)`
for it after the calls of the whole messages, and makes no call for `m2`. -/
theorem C7_short_message_is_applied (ms : List Call) (hms : ∀ m ∈ ms, m.Valid)
    (kind name val : List Nat) (hkind : kind = LOCATION ∨ kind = PASSENGER_COUNT)
    (hname : Wire name) (hval : Wire val) (m2 : Call) (hm2 : m2.Valid)
    (hid1 : m2.tram_id ≠ LOCATION) (hid2 : m2.tram_id ≠ PASSENGER_COUNT)
    (hlen : (encodeAll ms ++ (encodeContent MSGTYPE ++ (encodeContent kind ++
        (encodeContent name ++ encodeContent val))) ++ encode m2).length + 2 ≤ BUFFER_SIZE)
    (F : Fleet) (calls : List Call) :
    read_once F calls (encodeAll ms ++ (encodeContent MSGTYPE ++ (encodeContent kind ++
        (encodeContent name ++ encodeContent val))) ++ encode m2)
      = (match applyAll F (ms ++ [⟨val, m2.msgtype, kind⟩]) with
         | some G => Outcome.done (G, calls ++ (ms ++ [⟨val, m2.msgtype, kind⟩]))
         | none => Outcome.undefined) :=
  read_once_short_message ms hms kind name val hkind hname hval m2 hm2 hid1 hid2 hlen F calls

/-- C7 amended, at a `PASSENGER_COUNT` message without `TRAM_ID` record, `(VALUE, 50)`,
after the valid message of scenario 4 and before the valid message of scenario 1. -/
theorem C7_short_message_is_applied_witness :
    observe (read_once Fleet.empty [] (encodeAll [scenario4] ++ (encodeContent MSGTYPE ++
        (encodeContent PASSENGER_COUNT ++ (encodeContent VALUE ++ encodeContent (ascii "50"))))
        ++ encode scenario1))
      = Outcome.done
          ([⟨ascii "TRAMX", ascii "Depot", 0⟩, ⟨ascii "50", [], 0⟩],
           [scenario4, ⟨ascii "50", LOCATION, PASSENGER_COUNT⟩]) := by
  rw [C7_short_message_is_applied [scenario4] (by decide) PASSENGER_COUNT VALUE (ascii "50")
    (by decide) (by decide) (by decide) scenario1 (by decide) (by decide) (by decide)
    (by decide) Fleet.empty []]
  decide

/-- C8, refuted as stated: for the unit `2, 0, 65` (length byte 2, payload with a zero
byte) the decoder step yields an array whose two content bytes are `0, 0`, an empty
string, not the payload `0, 65`; for a unit with length byte 200 the step is undefined
(`content_length` is negative) and yields no content. -/
theorem C8_counterexample :
    read_content (recv [2, 0, 65]) 0 = some ([0, 0, 0], 3)
      ∧ cstr [0, 0, 0] = []
      ∧ read_content (recv (200 :: List.replicate 200 65)) 0 = none := by
  refine ⟨by decide, by decide, by decide⟩

/-- C8, amended: for every content unit with a length byte `L` in `0..127` followed by
`L` arbitrary payload bytes, lying in the buffer, the decoder step advances the read
index by exactly `L + 1` and yields a content whose string is the payload up to its first
zero byte: exactly the `L` payload bytes (and the terminator) when none of them is zero,
`L = 0` included. -/
theorem C8_content_unit (pre payload rest : List Nat) (hL : payload.length ≤ 127) :
    ∃ c, read_content (pre ++ (encodeContent payload ++ rest)) pre.length
          = some (c, pre.length + (payload.length + 1))
      ∧ cstr c = cstr payload
      ∧ ((∀ x ∈ payload, x ≠ 0) → c = payload ++ [0]) := by
  refine ⟨_, read_content_unit pre payload rest hL, ?_, ?_⟩
  · exact cstr_padded (cstr payload) (cstr_zero_free payload) _
  · intro h
    rw [cstr_eq_self payload h]
    simp

/-- C8 amended, at the unit `4 CITY` after eight bytes, and at the empty unit `0`. -/
theorem C8_content_unit_witness :
    (∃ c, read_content (encodeContent MSGTYPE ++ (encodeContent (ascii "CITY") ++ [9, 9]))
            (encodeContent MSGTYPE).length
          = some (c, (encodeContent MSGTYPE).length + ((ascii "CITY").length + 1))
      ∧ cstr c = cstr (ascii "CITY")
      ∧ ((∀ x ∈ ascii "CITY", x ≠ 0) → c = ascii "CITY" ++ [0]))
    ∧ read_content (encodeContent MSGTYPE ++ (encodeContent (ascii "CITY") ++ [9, 9])) 8
        = some (ascii "CITY" ++ [0], 13)
    ∧ read_content (recv [0]) 0 = some ([0], 1) :=
  ⟨C8_content_unit (encodeContent MSGTYPE) (ascii "CITY") [9, 9] (by decide), by decide,
    by decide⟩

/-- C9, refuted as stated: from the empty fleet the call
`update_tram_info(TRAMZ, "-5", PASSENGER_COUNT)` gives `TRAMZ` the passenger count `-5`,
and the call with the digit string `2147483648` gives it `-2147483648`. -/
theorem C9_counterexample :
    (applyAll Fleet.empty [negativeCount]).map dashboard = some [⟨ascii "TRAMZ", [], -5⟩]
      ∧ ¬ (0 : Int) ≤ (⟨ascii "TRAMZ", [], -5⟩ : TramInfo).passenger_count
      ∧ (applyAll Fleet.empty [countBeyondInt]).map dashboard
          = some [⟨ascii "TRAMZ", [], -2147483648⟩] := by
  refine ⟨by decide, by decide, by decide⟩

/-- C9, amended: for every sequence of `update_tram_info` calls from the empty fleet with
ids shorter than 128 bytes, `LOCATION` values shorter than 128 bytes, at most `MAX_TRAMS`
distinct ids, and `PASSENGER_COUNT` values whose number (white space, optional sign,
decimal digits) is between 0 and `INT_MAX`, every call is defined and in the fleet state
reached every tram in slots `0..num_trams-1` has `passenger_count ≥ 0`. -/
theorem C9_counts_nonnegative_for_numbers_in_range (calls : List Call)
    (hfit : ∀ c ∈ calls, c.Fits) (hcap : (firstSeen calls).length ≤ MAX_TRAMS)
    (hv : ∀ c ∈ calls, c.CountInRange) :
    ∃ F, applyAll Fleet.empty calls = some F ∧ ∀ t ∈ dashboard F, 0 ≤ t.passenger_count := by
  obtain ⟨F, hF, _⟩ := applyAll_defined calls hfit hcap
  have hinv := applyAll_invariant (fun G => ∀ i, 0 ≤ (G.trams i).passenger_count)
    Call.CountInRange (fun G H c hG hc hu => update_count_nonneg G H c hG hc hu)
    calls Fleet.empty F (fun _ => Int.le_refl 0) hv hF
  refine ⟨F, hF, ?_⟩
  intro t ht
  rw [dashboard, List.mem_map] at ht
  obtain ⟨i, _, rfl⟩ := ht
  exact hinv i

/-- C9 amended, at scenario 2. -/
theorem C9_counts_nonnegative_for_numbers_in_range_witness :
    (applyAll Fleet.empty scenario2).map dashboard
        = some [⟨ascii "TRAM001", ascii "Flinders", 50⟩, ⟨ascii "TRAM002", ascii "Williams", 22⟩]
      ∧ ∃ F, applyAll Fleet.empty scenario2 = some F
          ∧ ∀ t ∈ dashboard F, 0 ≤ t.passenger_count :=
  ⟨by decide,
   C9_counts_nonnegative_for_numbers_in_range scenario2 (by decide) (by decide) (by decide)⟩

/-- C10, refuted as stated: the fleet holds the trams `A` and `B`, pairwise distinct; the
id `A` is shorter than 128 bytes and present; the call
`update_tram_info(A, value, LOCATION)` with a value of 133 bytes copies 134 bytes into
the 128-byte `location` field of slot 0 and is undefined: the copy runs over the
passenger count of slot 0 and the id of slot 1. -/
theorem C10_counterexample :
    ids fleetAB = [ascii "A", ascii "B"]
      ∧ (ids fleetAB).Nodup
      ∧ (ascii "A").length < FIELD_SIZE
      ∧ ascii "A" ∈ ids fleetAB
      ∧ find_tram_index fleetAB (ascii "A") = some 0
      ∧ longValue.length = 133
      ∧ (update_tram_info fleetAB (ascii "A") longValue LOCATION).map ids = none := by
  refine ⟨by decide, by decide, by decide, by decide, by decide, longValue_length,
    update_longValue_undefined⟩

/-- C10, amended: key uniqueness is an invariant of the fleet for calls whose strings fit
the fields. If the tram ids in slots `0..num_trams-1` are pairwise distinct, then the call
`update_tram_info(id, value, msgtype)` for an id shorter than 128 bytes and a value that,
for `LOCATION`, is shorter than 128 bytes, with `num_trams < MAX_TRAMS` or the id already
present, is defined and leaves them pairwise distinct; hence every sequence of such calls
with at most `MAX_TRAMS` distinct ids is defined from the empty fleet and reaches a fleet
with no two slots of the same tram id. -/
theorem C10_ids_stay_distinct_when_strings_fit (F : Fleet) (id value msgtype : List Nat)
    (hN : (ids F).Nodup) (hid : id.length < FIELD_SIZE) (hval : ValueFits value msgtype)
    (hroom : F.num_trams < MAX_TRAMS ∨ id ∈ ids F) :
    (∃ G, update_tram_info F id value msgtype = some G ∧ (ids G).Nodup)
      ∧ (∀ calls, (∀ c ∈ calls, c.Fits) → (firstSeen calls).length ≤ MAX_TRAMS →
          ∃ H, applyAll Fleet.empty calls = some H ∧ (ids H).Nodup) := by
  constructor
  · have hr : id ∈ ids F ∨ (F.num_trams < MAX_TRAMS ∧ id.length < FIELD_SIZE) := by
      rcases hroom with h | h
      · exact Or.inr ⟨h, hid⟩
      · exact Or.inl h
    obtain ⟨G, hG⟩ := update_defined F id value msgtype hr hval
    exact ⟨G, hG, ids_nodup_update F G id value msgtype hN hG⟩
  · intro calls hfit hcap
    obtain ⟨H, hH, hids⟩ := applyAll_defined calls hfit hcap
    exact ⟨H, hH, hids ▸ firstSeen_nodup calls⟩

/-- C10 amended, at a new tram `TRAM002` with the count `99999999999` added to the fleet
that holds `TRAM001`. -/
theorem C10_ids_stay_distinct_when_strings_fit_witness :
    (update_tram_info ⟨Function.update Fleet.empty.trams 0 ⟨ascii "TRAM001", [], 0⟩, 1⟩
          (ascii "TRAM002") (ascii "99999999999") PASSENGER_COUNT).map ids
        = some [ascii "TRAM001", ascii "TRAM002"]
      ∧ ((∃ G, update_tram_info ⟨Function.update Fleet.empty.trams 0 ⟨ascii "TRAM001", [], 0⟩, 1⟩
              (ascii "TRAM002") (ascii "99999999999") PASSENGER_COUNT = some G ∧ (ids G).Nodup)
        ∧ (∀ calls, (∀ c ∈ calls, c.Fits) → (firstSeen calls).length ≤ MAX_TRAMS →
            ∃ H, applyAll Fleet.empty calls = some H ∧ (ids H).Nodup)) :=
  ⟨by decide,
   C10_ids_stay_distinct_when_strings_fit
     ⟨Function.update Fleet.empty.trams 0 ⟨ascii "TRAM001", [], 0⟩, 1⟩
     (ascii "TRAM002") (ascii "99999999999") PASSENGER_COUNT (by decide) (by decide)
     (by decide) (by decide)⟩

/-- C11. For every fleet state and every call `update_tram_info(id, value, msgtype)` with
id and value shorter than 128 bytes and `num_trams < MAX_TRAMS` or the id already present:
the call is defined, `num_trams` does not decrease, it grows by exactly 1 if the id was
not present and by 0 otherwise, and the tram id stored in every slot below the old
`num_trams` is unchanged, so the old ids are a prefix of the new ones (no tram is removed,
no position shifts). -/
theorem C11_num_trams_grows_and_slots_keep_ids (F : Fleet) (id value msgtype : List Nat)
    (hid : id.length < FIELD_SIZE) (hval : value.length < FIELD_SIZE)
    (hroom : F.num_trams < MAX_TRAMS ∨ id ∈ ids F) :
    ∃ G, update_tram_info F id value msgtype = some G
      ∧ F.num_trams ≤ G.num_trams
      ∧ G.num_trams = (if id ∈ ids F then F.num_trams else F.num_trams + 1)
      ∧ (∀ i, i < F.num_trams → (G.trams i).tramID = (F.trams i).tramID)
      ∧ ids F <+: ids G := by
  have hr : id ∈ ids F ∨ (F.num_trams < MAX_TRAMS ∧ id.length < FIELD_SIZE) := by
    rcases hroom with h | h
    · exact Or.inr ⟨h, hid⟩
    · exact Or.inl h
  obtain ⟨G, hG⟩ := update_defined F id value msgtype hr (fun _ => hval)
  refine ⟨G, hG, ?_⟩
  obtain ⟨idx, u, hGt, hut, _, _, hcase⟩ := update_shape F G id value msgtype hG
  have hpre : ids F <+: ids G := by
    rw [ids_update F G id value msgtype hG]
    by_cases hmem : id ∈ ids F
    · rw [if_pos hmem]
    · rw [if_neg hmem]; exact List.prefix_append _ _
  rcases hcase with ⟨hfind, hnum⟩ | ⟨hfind, hidx, hnum, _, _⟩
  · obtain ⟨hlt, hidF, _⟩ := find_some F id idx hfind
    have hmem : id ∈ ids F := (mem_ids F id).2 ⟨idx, hlt, hidF⟩
    refine ⟨by omega, by rw [if_pos hmem, hnum], ?_, hpre⟩
    intro i _
    rw [hGt]
    by_cases hi : i = idx
    · subst hi; rw [Function.update_same, hut, hidF]
    · rw [Function.update_noteq hi]
  · have hnot : id ∉ ids F := (find_none_iff F id).1 hfind
    refine ⟨by omega, by rw [if_neg hnot, hnum], ?_, hpre⟩
    intro i hi
    have hne : i ≠ idx := by omega
    rw [hGt, Function.update_noteq hne]

/-- C11, at a new tram `TRAM003` with the count `99999999999` and at the present tram
`TRAM001` on the fleet that holds `TRAM001` and `TRAM002`. -/
theorem C11_witness :
    (update_tram_info fleetTwoTrams (ascii "TRAM003") (ascii "99999999999")
        PASSENGER_COUNT).map (fun G => (G.num_trams, ids G))
      = some (3, [ascii "TRAM001", ascii "TRAM002", ascii "TRAM003"])
    ∧ (update_tram_info fleetTwoTrams (ascii "TRAM001") (ascii "22")
        PASSENGER_COUNT).map (fun G => (G.num_trams, ids G))
      = some (2, [ascii "TRAM001", ascii "TRAM002"])
    ∧ ∃ G, update_tram_info fleetTwoTrams (ascii "TRAM003") (ascii "99999999999")
          PASSENGER_COUNT = some G
        ∧ fleetTwoTrams.num_trams ≤ G.num_trams
        ∧ G.num_trams = (if ascii "TRAM003" ∈ ids fleetTwoTrams then fleetTwoTrams.num_trams
            else fleetTwoTrams.num_trams + 1)
        ∧ (∀ i, i < fleetTwoTrams.num_trams →
            (G.trams i).tramID = (fleetTwoTrams.trams i).tramID)
        ∧ ids fleetTwoTrams <+: ids G :=
  ⟨by decide, by decide,
   C11_num_trams_grows_and_slots_keep_ids fleetTwoTrams (ascii "TRAM003")
     (ascii "99999999999") PASSENGER_COUNT (by decide) (by decide) (by decide)⟩

/-- C12. Idempotence of apply: for every fleet state and every message
`(id, value, msgtype)` with strings shorter than 128 bytes and room for the tram, the call
of `update_tram_info` with the message is defined, and applying it twice in a row gives
the same fleet state as applying it once. -/
theorem C12_update_twice_is_update_once (F : Fleet) (id value msgtype : List Nat)
    (hid : id.length < FIELD_SIZE) (hval : value.length < FIELD_SIZE)
    (hroom : F.num_trams < MAX_TRAMS ∨ id ∈ ids F) :
    ∃ G, update_tram_info F id value msgtype = some G
      ∧ update_tram_info G id value msgtype = some G := by
  have hr : id ∈ ids F ∨ (F.num_trams < MAX_TRAMS ∧ id.length < FIELD_SIZE) := by
    rcases hroom with h | h
    · exact Or.inr ⟨h, hid⟩
    · exact Or.inl h
  obtain ⟨G, hG⟩ := update_defined F id value msgtype hr (fun _ => hval)
  exact ⟨G, hG, update_again F G id value msgtype hG⟩

/-- C12, at the location update `TRAMABC` at `CITY` on the empty fleet, and at the count
`99999999999` for the new tram `TRAM003`. -/
theorem C12_witness :
    ((update_tram_info Fleet.empty (ascii "TRAMABC") (ascii "CITY") LOCATION).bind
        (fun G => update_tram_info G (ascii "TRAMABC") (ascii "CITY") LOCATION)).map dashboard
      = some [⟨ascii "TRAMABC", ascii "CITY", 0⟩]
    ∧ (update_tram_info Fleet.empty (ascii "TRAMABC") (ascii "CITY") LOCATION).map dashboard
      = some [⟨ascii "TRAMABC", ascii "CITY", 0⟩]
    ∧ (∃ G, update_tram_info Fleet.empty (ascii "TRAMABC") (ascii "CITY") LOCATION = some G
        ∧ update_tram_info G (ascii "TRAMABC") (ascii "CITY") LOCATION = some G)
    ∧ ((update_tram_info fleetTwoTrams (ascii "TRAM003") (ascii "99999999999")
          PASSENGER_COUNT).bind (fun G => update_tram_info G (ascii "TRAM003")
            (ascii "99999999999") PASSENGER_COUNT)).map dashboard
      = (update_tram_info fleetTwoTrams (ascii "TRAM003") (ascii "99999999999")
          PASSENGER_COUNT).map dashboard :=
  ⟨by decide, by decide,
   C12_update_twice_is_update_once Fleet.empty (ascii "TRAMABC") (ascii "CITY") LOCATION
     (by decide) (by decide) (by decide),
   by decide⟩

/-- C13. Frame of apply: for every fleet state and every call
`update_tram_info(id, value, msgtype)` with id and value shorter than 128 bytes and room
for the tram, the call is defined and every slot other than the slot of the tram with
that id is unchanged (id, location and passenger count); in the slot of the tram a
`LOCATION` update sets the location to the value and leaves the passenger count unchanged,
a `PASSENGER_COUNT` update sets the passenger count to `atoi` of the value and leaves the
location unchanged. -/
theorem C13_update_changes_one_field_of_one_tram (F : Fleet) (id value msgtype : List Nat)
    (hid : id.length < FIELD_SIZE) (hval : value.length < FIELD_SIZE)
    (hroom : F.num_trams < MAX_TRAMS ∨ id ∈ ids F) :
    ∃ G idx, update_tram_info F id value msgtype = some G
      ∧ find_tram_index G id = some idx
      ∧ (G.trams idx).tramID = id
      ∧ (∀ i, i ≠ idx → G.trams i = F.trams i)
      ∧ (msgtype = LOCATION →
          (G.trams idx).location = value
          ∧ (G.trams idx).passenger_count = (F.trams idx).passenger_count)
      ∧ (msgtype = PASSENGER_COUNT →
          some (G.trams idx).passenger_count = atoi value
          ∧ (G.trams idx).location = (F.trams idx).location) := by
  have hr : id ∈ ids F ∨ (F.num_trams < MAX_TRAMS ∧ id.length < FIELD_SIZE) := by
    rcases hroom with h | h
    · exact Or.inr ⟨h, hid⟩
    · exact Or.inl h
  obtain ⟨G, hG⟩ := update_defined F id value msgtype hr (fun _ => hval)
  obtain ⟨idx, u, hGt, hut, hu, hfind, _⟩ := update_shape F G id value msgtype hG
  have hGi : G.trams idx = u := by rw [hGt, Function.update_same]
  refine ⟨G, idx, hG, hfind, by rw [hGi, hut], ?_, ?_, ?_⟩
  · intro i hi
    rw [hGt, Function.update_noteq hi]
  · intro hL
    subst hL
    rw [hGi, newSlot_location _ u value hu]
    exact ⟨rfl, rfl⟩
  · intro hP
    subst hP
    obtain ⟨c, hc, huc⟩ := newSlot_passenger_count _ u value hu
    rw [hGi, huc, hc]
    exact ⟨rfl, rfl⟩

/-- C13, at the location update `TRAM001` at `Williams` on the fleet that holds `TRAM001`
(at `Flinders`, 50 passengers) and `TRAM002` (22 passengers). -/
theorem C13_witness :
    (update_tram_info fleetTwoTrams (ascii "TRAM001") (ascii "Williams") LOCATION).map dashboard
      = some [⟨ascii "TRAM001", ascii "Williams", 50⟩, ⟨ascii "TRAM002", [], 22⟩]
    ∧ (update_tram_info fleetTwoTrams (ascii "TRAM002") (ascii "99999999999")
        PASSENGER_COUNT).map dashboard
      = some [⟨ascii "TRAM001", ascii "Flinders", 50⟩, ⟨ascii "TRAM002", [], 1215752191⟩]
    ∧ ∃ G idx, update_tram_info fleetTwoTrams (ascii "TRAM001") (ascii "Williams") LOCATION
          = some G
        ∧ find_tram_index G (ascii "TRAM001") = some idx
        ∧ (G.trams idx).tramID = ascii "TRAM001"
        ∧ (∀ i, i ≠ idx → G.trams i = fleetTwoTrams.trams i)
        ∧ (LOCATION = LOCATION →
            (G.trams idx).location = ascii "Williams"
            ∧ (G.trams idx).passenger_count = (fleetTwoTrams.trams idx).passenger_count)
        ∧ (LOCATION = PASSENGER_COUNT →
            some (G.trams idx).passenger_count = atoi (ascii "Williams")
            ∧ (G.trams idx).location = (fleetTwoTrams.trams idx).location) :=
  ⟨by decide, by decide,
   C13_update_changes_one_field_of_one_tram fleetTwoTrams (ascii "TRAM001")
     (ascii "Williams") LOCATION (by decide) (by decide) (by decide)⟩

/-- C14. The decoder is positional and ignores field names: two reads made of six-content
frames that agree, frame by frame, on all six length bytes and on the second, fourth and
sixth contents, and differ arbitrarily in the first, third and fifth contents (the names,
which may hold any bytes), have the same length and give the same run of the parse loop:
the same sequence of fleet updates with the same outcome. When no content has more than
127 bytes the updates are those of the strings in second, fourth and sixth position. -/
theorem C14_field_names_are_ignored (fs gs : List Frame)
    (hsame : List.Forall₂ SameButNames fs gs)
    (_hlen : (encodeFrames fs).length ≤ BUFFER_SIZE) (F : Fleet) (calls : List Call) :
    (encodeFrames fs).length = (encodeFrames gs).length
      ∧ read_once F calls (encodeFrames fs) = read_once F calls (encodeFrames gs)
      ∧ ((∀ f ∈ fs, f.Loose) →
          read_once F calls (encodeFrames gs)
            = (match applyAll F (framesStringCalls fs) with
               | some G => Outcome.done (G, calls ++ framesStringCalls fs)
               | none => Outcome.undefined)) := by
  have hrun : read_once F calls (encodeFrames fs) = read_once F calls (encodeFrames gs) := by
    rw [read_once_any_frames, read_once_any_frames, sameButNames_run fs gs hsame]
  refine ⟨sameButNames_length fs gs hsame, hrun, ?_⟩
  intro hfs
  rw [← hrun]
  exact read_once_loose fs hfs F calls

/-- C14, at the message of scenario 1 and the same message with the names `MSGTYPE`,
`TRAM_ID`, `VALUE` replaced by other bytes of the same lengths, zero bytes included. -/
theorem C14_witness :
    observe (read_once Fleet.empty []
        (encodeFrames [⟨[1, 0, 0, 255, 65, 0, 9], LOCATION, [0, 0, 0, 0, 0, 0, 0],
          ascii "TRAMABC", ascii "value", ascii "CITY"⟩]))
      = Outcome.done ([⟨ascii "TRAMABC", ascii "CITY", 0⟩], [scenario1])
    ∧ ((encodeFrames [scenario1.frame]).length
        = (encodeFrames [⟨[1, 0, 0, 255, 65, 0, 9], LOCATION, [0, 0, 0, 0, 0, 0, 0],
            ascii "TRAMABC", ascii "value", ascii "CITY"⟩]).length
      ∧ read_once Fleet.empty [] (encodeFrames [scenario1.frame])
        = read_once Fleet.empty []
            (encodeFrames [⟨[1, 0, 0, 255, 65, 0, 9], LOCATION, [0, 0, 0, 0, 0, 0, 0],
              ascii "TRAMABC", ascii "value", ascii "CITY"⟩])
      ∧ ((∀ f ∈ [scenario1.frame], f.Loose) →
          read_once Fleet.empty []
              (encodeFrames [⟨[1, 0, 0, 255, 65, 0, 9], LOCATION, [0, 0, 0, 0, 0, 0, 0],
                ascii "TRAMABC", ascii "value", ascii "CITY"⟩])
            = (match applyAll Fleet.empty (framesStringCalls [scenario1.frame]) with
               | some G => Outcome.done (G, [] ++ framesStringCalls [scenario1.frame])
               | none => Outcome.undefined))) :=
  ⟨by decide,
   C14_field_names_are_ignored [scenario1.frame]
     [⟨[1, 0, 0, 255, 65, 0, 9], LOCATION, [0, 0, 0, 0, 0, 0, 0], ascii "TRAMABC",
       ascii "value", ascii "CITY"⟩]
     (List.Forall₂.cons (by decide) List.Forall₂.nil) (by decide) Fleet.empty []⟩

/-- C15, refuted as stated: for the read `200, 65` the first content length of the first
iteration is `-56`, not a non-negative number, and the iteration is undefined instead of
advancing `i` by 6; for a read of 255 bytes `100` the third content of the first iteration
runs past the end of the buffer and the iteration is undefined too. -/
theorem C15_counterexample :
    content_length (recv [200, 65]) 0 = some (-56)
      ∧ read_contents (recv [200, 65]) 0 = none
      ∧ observe (read_once Fleet.empty [] [200, 65]) = Outcome.undefined
      ∧ read_contents (recv (List.replicate 255 100)) 0 = none := by
  refine ⟨by decide, by decide, by decide, read_past_buffer⟩

/-- C15, amended: for every buffer content and every read size `n`, an iteration of the
loop `while (i < n)` whose six content extractions are defined (every length byte read
inside the buffer and at most 127, every content copied from inside the buffer) increases
`i` by at least 6; so from any index `i` the loop finishes or reaches an undefined
operation within `fuel` iterations when `n ≤ i + 6 * fuel`, and from `i = 0` within
`ceil(n / 6)` iterations. -/
theorem C15_defined_iterations_advance_by_six (buffer : List Nat) (n fuel i : Nat)
    (F : Fleet) (calls : List Call) (hfuel : n ≤ i + 6 * fuel) :
    (∀ c j, read_contents buffer i = some (c, j) → i + 6 ≤ j)
      ∧ parse_loop buffer n fuel i F calls ≠ Outcome.outOfFuel
      ∧ parse_loop buffer n ((n + 5) / 6) 0 F calls ≠ Outcome.outOfFuel := by
  refine ⟨fun c j h => (read_contents_advances buffer i c j h).1,
    parse_loop_enough_fuel buffer n fuel i F calls hfuel,
    parse_loop_enough_fuel buffer n ((n + 5) / 6) 0 F calls (by omega)⟩

/-- C15 amended, at the 44 bytes of scenario 1: one iteration from 0 to 44, and 8
iterations are enough. -/
theorem C15_defined_iterations_advance_by_six_witness :
    (read_contents (recv (encode scenario1)) 0).map (fun r => r.2) = some 44
      ∧ observe (parse_loop (recv (encode scenario1)) 44 8 0 Fleet.empty [])
          = Outcome.done ([⟨ascii "TRAMABC", ascii "CITY", 0⟩], [scenario1])
      ∧ ((∀ c j, read_contents (recv (encode scenario1)) 0 = some (c, j) → 0 + 6 ≤ j)
        ∧ parse_loop (recv (encode scenario1)) 44 8 0 Fleet.empty [] ≠ Outcome.outOfFuel
        ∧ parse_loop (recv (encode scenario1)) 44 ((44 + 5) / 6) 0 Fleet.empty []
            ≠ Outcome.outOfFuel) :=
  ⟨by decide, by decide,
   C15_defined_iterations_advance_by_six (recv (encode scenario1)) 44 8 0 Fleet.empty []
     (by decide)⟩

/-- C16. Every tram id string and payload string that the parse loop passes to
`update_tram_info` has at most 127 bytes, for every buffer content, so that the string and
its terminator fit the 128-byte `tramID` and `location` fields: this holds for the strings
of every iteration whose content extractions are defined, and for every call recorded by
a finished run. -/
theorem C16_strings_fit_the_fields (buffer : List Nat) (n fuel i : Nat) (F : Fleet)
    (calls calls2 : List Call)
    (hcalls : ∀ x ∈ calls, x.tram_id.length ≤ 127 ∧ x.value.length ≤ 127)
    (hrun : (parse_loop buffer n fuel i F calls).map (fun p => p.2) = Outcome.done calls2) :
    (∀ x ∈ calls2, x.tram_id.length + 1 ≤ FIELD_SIZE ∧ x.value.length + 1 ≤ FIELD_SIZE)
      ∧ (∀ k c j, read_contents buffer k = some (c, j) →
          (cstr c.tram_id_value).length + 1 ≤ FIELD_SIZE
          ∧ (cstr c.payload).length + 1 ≤ FIELD_SIZE) := by
  constructor
  · cases hr : parse_loop buffer n fuel i F calls with
    | done q =>
      obtain ⟨G, calls3⟩ := q
      simp only [hr, Outcome.map, Outcome.done.injEq] at hrun
      subst hrun
      intro x hx
      have := parse_loop_calls_fit buffer n fuel i F G calls calls3 hcalls hr x hx
      simp only [FIELD_SIZE]
      omega
    | undefined => simp [hr, Outcome.map] at hrun
    | outOfFuel => simp [hr, Outcome.map] at hrun
  · intro k c j h
    have := read_contents_advances buffer k c j h
    simp only [FIELD_SIZE]
    omega

/-- C16, at the run on the bytes of scenario 1. -/
theorem C16_witness :
    (∀ x ∈ [scenario1], x.tram_id.length + 1 ≤ FIELD_SIZE ∧ x.value.length + 1 ≤ FIELD_SIZE)
      ∧ (∀ k c j, read_contents (recv (encode scenario1)) k = some (c, j) →
          (cstr c.tram_id_value).length + 1 ≤ FIELD_SIZE
          ∧ (cstr c.payload).length + 1 ≤ FIELD_SIZE) :=
  C16_strings_fit_the_fields (recv (encode scenario1)) 44 44 0 Fleet.empty [] [scenario1]
    (by decide) (by decide)

/-- C17, the code at the failing input: after location updates for 100 distinct trams the
fleet holds `MAX_TRAMS` trams; the update for one more tram finds no slot, so the index
of the slot it writes is `num_trams = MAX_TRAMS`, outside `trams[MAX_TRAMS]`, and the
call is undefined. -/
theorem C17_full_fleet_new_id_writes_slot_MAX_TRAMS :
    ∃ F, applyAll Fleet.empty hundredTrams = some F
      ∧ F.num_trams = MAX_TRAMS
      ∧ find_tram_index F oneMoreTram.tram_id = none
      ∧ tram_index F oneMoreTram.tram_id = MAX_TRAMS
      ∧ update_tram_info F oneMoreTram.tram_id oneMoreTram.value oneMoreTram.msgtype = none
      ∧ applyAll Fleet.empty (hundredTrams ++ [oneMoreTram]) = none := by
  obtain ⟨F, hF, _, hD⟩ := applyAll_spec hundredTrams hundredTrams_applicable
    (by rw [firstSeen_hundredTrams]; decide)
  have hids : ids F = firstSeen hundredTrams := by rw [ids, hD, specDashboard_ids]
  have hlen : (specDashboard hundredTrams).length = (firstSeen hundredTrams).length := by
    rw [← specDashboard_ids, List.length_map]
  have hnum : F.num_trams = MAX_TRAMS := by
    rw [← dashboard_length, hD, hlen, firstSeen_hundredTrams]
    rfl
  have hnew : oneMoreTram.tram_id ∉ ids F := by rw [hids]; exact oneMoreTram_new
  obtain ⟨hu, hti⟩ := update_full F oneMoreTram.tram_id oneMoreTram.value oneMoreTram.msgtype
    hnum hnew
  refine ⟨F, hF, hnum, (find_none_iff F _).2 hnew, hti, hu, ?_⟩
  rw [applyAll_append, hF, Option.some_bind, applyAll_single, hu]

end TramDashboard
